import Mathlib

/-!
Verification development for the nevermail-core cache layer.

The definitions below are a shallow embedding of the Rust sources:
  * src/store/flags.rs     — the two-bit flag encoding
  * src/models.rs          — Folder / MessageSummary / AttachmentData
  * src/store/schema.rs    — table schemas and the forward-only migrator
  * src/store/queries.rs   — every cache operation (do_save_folders,
                             do_save_messages, do_load_messages, ...)

The SQLite database is modelled as lists of typed rows.  SQL UPDATE is a
map over the row list, DELETE a filter, INSERT an append.  `u64` values
arriving through the API are modelled as `Nat`; they are stored as the
same `Nat` (the Rust code stores `v as i64` and reads back `v as u64`,
a bijection on the 64-bit range), while ORDER BY comparisons on stored
hashes use the signed 64-bit view via `toI64`.  SQL-level errors coming
from the environment (I/O, corruption) are outside the model; the one
statement that can fail semantically — the folder upsert, which can
violate UNIQUE (account_id, mailbox_hash) — is modelled with `Except`.
Foreign keys are declared in the schema DDL but the connection never
enables them (no PRAGMA foreign_keys), so the model enforces none.
-/

namespace Nevermail

/-- Signed 64-bit view of a stored integer: Rust writes `v as i64` for a
`u64` value `v`, so SQLite orders stored hashes by this reinterpretation. -/
def toI64 (n : Nat) : Int :=
  if n % 2 ^ 64 < 2 ^ 63 then ((n % 2 ^ 64 : Nat) : Int)
  else ((n % 2 ^ 64 : Nat) : Int) - 2 ^ 64

-- ---------------------------------------------------------------------------
-- src/store/flags.rs
-- ---------------------------------------------------------------------------

/-- flags.rs `flags_to_u8`: bit 0 = SEEN (read), bit 1 = FLAGGED (starred). -/
def flags_to_u8 (is_read is_starred : Bool) : Nat :=
  (if is_read then 1 else 0) + (if is_starred then 2 else 0)

/-- flags.rs `flags_from_u8`: `(f & 1 != 0, f & 2 != 0)`, rendered
arithmetically as the low two bits of `f`. -/
def flags_from_u8 (f : Nat) : Bool × Bool :=
  (f % 2 == 1, f / 2 % 2 == 1)

-- ---------------------------------------------------------------------------
-- src/models.rs
-- ---------------------------------------------------------------------------

/-- models.rs `Folder`. -/
structure Folder where
  name : String
  path : String
  unread_count : Nat
  total_count : Nat
  mailbox_hash : Nat
deriving DecidableEq, Repr

/-- models.rs `MessageSummary`.  The Rust fields `from` and `to` are called `from_` and `to_`
here because `from` is reserved in Lean. -/
structure MessageSummary where
  uid : Nat
  subject : String
  from_ : String
  to_ : String
  date : String
  is_read : Bool
  is_starred : Bool
  has_attachments : Bool
  thread_id : Option Nat
  envelope_hash : Nat
  timestamp : Int
  mailbox_hash : Nat
  message_id : String
  in_reply_to : Option String
  reply_to : Option String
  thread_depth : Nat
deriving DecidableEq, Repr

/-- models.rs `AttachmentData` (bytes as a list of Nat). -/
structure AttachmentData where
  filename : String
  mime_type : String
  data : List Nat
deriving DecidableEq, Repr

-- ---------------------------------------------------------------------------
-- Database rows, one structure per table of schema.rs
-- ---------------------------------------------------------------------------

/-- A row of the `folders` table. -/
structure FolderRow where
  account_id : String
  path : String
  name : String
  mailbox_hash : Nat
  unread_count : Nat
  total_count : Nat
deriving DecidableEq, Repr

/-- A row of the `messages` table (all columns after migration). -/
structure MessageRow where
  account_id : String
  envelope_hash : Nat
  mailbox_hash : Nat
  subject : String
  sender : String
  date : String
  timestamp : Int
  is_read : Nat
  is_starred : Nat
  has_attachments : Nat
  thread_id : Option Nat
  body_rendered : Option String
  flags_server : Nat
  flags_local : Nat
  pending_op : Option String
  message_id : Option String
  in_reply_to : Option String
  thread_depth : Nat
  body_markdown : Option String
  reply_to : Option String
  recipient : Option String
deriving DecidableEq, Repr

/-- A row of the `attachments` table. -/
structure AttachmentRow where
  account_id : String
  envelope_hash : Nat
  idx : Nat
  filename : String
  mime_type : String
  data : List Nat
deriving DecidableEq, Repr

/-- The cache database: contents of the three tables. -/
structure Db where
  folders : List FolderRow
  messages : List MessageRow
  attachments : List AttachmentRow
deriving DecidableEq, Repr

-- ---------------------------------------------------------------------------
-- queries.rs row_to_summary
-- ---------------------------------------------------------------------------

/-- queries.rs `row_to_summary`: shared row mapping for `do_load_messages`
and `do_search`.  The dual-truth reveal picks `flags_local` when
`pending_op` is set, `flags_server` otherwise; the Rust `as u8` cast of
the i32 column is the `% 256`. -/
def row_to_summary (r : MessageRow) : MessageSummary :=
  let effective_flags : Nat :=
    (if r.pending_op.isSome then r.flags_local else r.flags_server) % 256
  let rs := flags_from_u8 effective_flags
  { uid := r.envelope_hash
    subject := r.subject
    from_ := r.sender
    to_ := r.recipient.getD ""
    date := r.date
    timestamp := r.timestamp
    is_read := rs.1
    is_starred := rs.2
    has_attachments := r.has_attachments != 0
    thread_id := r.thread_id
    envelope_hash := r.envelope_hash
    mailbox_hash := r.mailbox_hash
    message_id := r.message_id.getD ""
    in_reply_to := r.in_reply_to
    thread_depth := r.thread_depth
    reply_to := r.reply_to }

-- ---------------------------------------------------------------------------
-- queries.rs do_save_folders / do_load_folders
-- ---------------------------------------------------------------------------

/-- One folder upsert of `do_save_folders`:
INSERT ... ON CONFLICT(account_id, path) DO UPDATE.  The statement fails
(SQLite constraint error, rolling the transaction back) when the written
row would collide with a different path on UNIQUE (account_id,
mailbox_hash). -/
def upsertFolder (a : String) (fs : List FolderRow) (f : Folder) :
    Except String (List FolderRow) :=
  if fs.any (fun r => r.account_id == a && r.path != f.path &&
      r.mailbox_hash == f.mailbox_hash) then
    .error "Cache insert error: UNIQUE constraint failed"
  else if fs.any (fun r => r.account_id == a && r.path == f.path) then
    .ok (fs.map (fun r =>
      if r.account_id == a && r.path == f.path then
        { r with name := f.name, mailbox_hash := f.mailbox_hash,
                 unread_count := f.unread_count, total_count := f.total_count }
      else r))
  else
    .ok (fs ++ [{ account_id := a, path := f.path, name := f.name,
                  mailbox_hash := f.mailbox_hash,
                  unread_count := f.unread_count,
                  total_count := f.total_count }])

/-- queries.rs `do_save_folders`: upsert every incoming folder, then sweep
folders of this account whose `mailbox_hash` is not in the incoming set,
cascading to the account's messages in swept folders and their
attachments.  An empty incoming list clears the whole account. -/
def do_save_folders (db : Db) (account_id : String) (folders : List Folder) :
    Except String Db :=
  match folders.foldlM (upsertFolder account_id) db.folders with
  | .error e => .error e
  | .ok fs =>
  let server_hashes := folders.map (fun f => f.mailbox_hash)
  if server_hashes.isEmpty then
    .ok { folders := fs.filter (fun r => r.account_id != account_id),
          messages := db.messages.filter (fun m => m.account_id != account_id),
          attachments := db.attachments.filter (fun t =>
            !(t.account_id == account_id && db.messages.any (fun m =>
              m.account_id == account_id && m.envelope_hash == t.envelope_hash))) }
  else
    .ok { folders := fs.filter (fun r =>
            !(r.account_id == account_id && !server_hashes.contains r.mailbox_hash)),
          messages := db.messages.filter (fun m =>
            !(m.account_id == account_id && !server_hashes.contains m.mailbox_hash)),
          attachments := db.attachments.filter (fun t =>
            !(t.account_id == account_id && db.messages.any (fun m =>
              m.account_id == account_id && !server_hashes.contains m.mailbox_hash &&
              m.envelope_hash == t.envelope_hash))) }

/-- Insert into a sorted list: before the first element that `x` may
precede.  Used to model SQL ORDER BY and the Rust `sort_by`. -/
def insertLe {α : Type} (le : α → α → Bool) (x : α) : List α → List α
  | [] => [x]
  | y :: ys => if le x y then x :: y :: ys else y :: insertLe le x ys

/-- Insertion sort by a boolean comparator (structurally recursive, so
concrete runs reduce inside the kernel). -/
def sortLe {α : Type} (le : α → α → Bool) : List α → List α
  | [] => []
  | x :: xs => insertLe le x (sortLe le xs)

/-- Comparator of `do_load_folders`: INBOX first, then by path. -/
def folderLe (a b : Folder) : Bool :=
  if a.path == "INBOX" then true
  else if b.path == "INBOX" then false
  else a.path ≤ b.path

/-- queries.rs `do_load_folders`: the account's folders, INBOX first, then
alphabetical by path. -/
def do_load_folders (db : Db) (account_id : String) : List Folder :=
  let folders := (db.folders.filter (fun r => r.account_id == account_id)).map
    (fun r => { path := r.path, name := r.name, mailbox_hash := r.mailbox_hash,
                unread_count := r.unread_count, total_count := r.total_count })
  sortLe folderLe folders

-- ---------------------------------------------------------------------------
-- queries.rs do_save_messages
-- ---------------------------------------------------------------------------

/-- The per-incoming-message step of `do_save_messages`: an UPDATE of the
server-side columns when the envelope is in the pending set, otherwise an
INSERT OR IGNORE with `flags_server = flags_local` and no pending op. -/
def save_msg_step (account_id : String) (mailbox_hash : Nat)
    (pending_set : List Nat) (ms : List MessageRow) (m : MessageSummary) :
    List MessageRow :=
  let server_flags := flags_to_u8 m.is_read m.is_starred
  if pending_set.contains m.envelope_hash then
    ms.map (fun r =>
      if r.account_id == account_id && r.envelope_hash == m.envelope_hash &&
          r.pending_op.isSome then
        { r with flags_server := server_flags, subject := m.subject,
                 sender := m.from_, date := m.date, timestamp := m.timestamp,
                 has_attachments := if m.has_attachments then 1 else 0,
                 thread_id := m.thread_id, message_id := some m.message_id,
                 in_reply_to := m.in_reply_to, thread_depth := m.thread_depth,
                 reply_to := m.reply_to, recipient := some m.to_ }
      else r)
  else if ms.any (fun r => r.account_id == account_id &&
      r.envelope_hash == m.envelope_hash) then
    ms
  else
    ms ++ [{ account_id := account_id, envelope_hash := m.envelope_hash,
             mailbox_hash := mailbox_hash, subject := m.subject,
             sender := m.from_, date := m.date, timestamp := m.timestamp,
             is_read := if m.is_read then 1 else 0,
             is_starred := if m.is_starred then 1 else 0,
             has_attachments := if m.has_attachments then 1 else 0,
             thread_id := m.thread_id, body_rendered := none,
             flags_server := server_flags, flags_local := server_flags,
             pending_op := none, message_id := some m.message_id,
             in_reply_to := m.in_reply_to, thread_depth := m.thread_depth,
             body_markdown := none, reply_to := m.reply_to,
             recipient := some m.to_ }]

/-- queries.rs `do_save_messages`: collect pending envelopes of the
mailbox, delete attachments of its non-pending messages and then those
messages, and fold the incoming list through `save_msg_step`. -/
def do_save_messages (db : Db) (account_id : String) (mailbox_hash : Nat)
    (messages : List MessageSummary) : Db :=
  let pending_set := (db.messages.filter (fun m =>
    m.account_id == account_id && m.mailbox_hash == mailbox_hash &&
    m.pending_op.isSome)).map (fun m => m.envelope_hash)
  let attachments := db.attachments.filter (fun t =>
    !(t.account_id == account_id && db.messages.any (fun m =>
      m.account_id == account_id && m.mailbox_hash == mailbox_hash &&
      m.pending_op.isNone && m.envelope_hash == t.envelope_hash)))
  let ms := db.messages.filter (fun m =>
    !(m.account_id == account_id && m.mailbox_hash == mailbox_hash &&
      m.pending_op.isNone))
  let ms := messages.foldl (save_msg_step account_id mailbox_hash pending_set) ms
  { db with messages := ms, attachments := attachments }

-- ---------------------------------------------------------------------------
-- queries.rs do_load_messages
-- ---------------------------------------------------------------------------

/-- COALESCE(thread_id, envelope_hash) under the stored signed-64 view. -/
def groupKey (r : MessageRow) : Int :=
  toI64 (r.thread_id.getD r.envelope_hash)

/-- MAX(timestamp) OVER (PARTITION BY COALESCE(thread_id, envelope_hash)),
computed over the WHERE-filtered row set. -/
def groupMaxTs (rows : List MessageRow) (k : Int) : Int :=
  (((rows.filter (fun r => groupKey r == k)).map
    (fun r => r.timestamp)).max?).getD 0

/-- The ORDER BY of `do_load_messages`: newest thread first (group max
timestamp descending), then group key, then timestamp ascending. -/
def loadMsgLe (rows : List MessageRow) (r1 r2 : MessageRow) : Bool :=
  let m1 := groupMaxTs rows (groupKey r1)
  let m2 := groupMaxTs rows (groupKey r2)
  decide (m2 < m1) || (m1 == m2 &&
    (decide (groupKey r1 < groupKey r2) || (groupKey r1 == groupKey r2 &&
      decide (r1.timestamp ≤ r2.timestamp))))

/-- queries.rs `do_load_messages`: WHERE mailbox_hash = ? AND account_id
= ?, the threading ORDER BY, then LIMIT/OFFSET, mapped through
`row_to_summary`. -/
def do_load_messages (db : Db) (account_id : String) (mailbox_hash : Nat)
    (limit offset : Nat) : List MessageSummary :=
  let rows := db.messages.filter (fun m =>
    m.mailbox_hash == mailbox_hash && m.account_id == account_id)
  let sorted := sortLe (loadMsgLe rows) rows
  ((sorted.drop offset).take limit).map row_to_summary

-- ---------------------------------------------------------------------------
-- queries.rs do_load_body / do_save_body
-- ---------------------------------------------------------------------------

/-- queries.rs `do_load_body`: `(markdown, plain, attachments ordered by
idx)` when a plain body has been cached, `none` when the row is absent or
its `body_rendered` is NULL. -/
def do_load_body (db : Db) (account_id : String) (envelope_hash : Nat) :
    Option (String × String × List AttachmentData) :=
  match db.messages.find? (fun m =>
      m.account_id == account_id && m.envelope_hash == envelope_hash) with
  | none => none
  | some r =>
    match r.body_rendered with
    | none => none
    | some body_plain =>
      let body_markdown := r.body_markdown.getD ""
      let atts := sortLe (fun t1 t2 => t1.idx ≤ t2.idx)
        (db.attachments.filter (fun t =>
          t.account_id == account_id && t.envelope_hash == envelope_hash))
      some (body_markdown, body_plain,
        atts.map (fun t =>
          { filename := t.filename, mime_type := t.mime_type, data := t.data }))

/-- queries.rs `do_save_body`: update the body columns in place, delete the
old attachment set for the key, and insert the new one indexed by position.
The UPDATE silently matches zero rows when the message is absent, while
the attachment INSERTs still run (foreign keys are never enabled). -/
def do_save_body (db : Db) (account_id : String) (envelope_hash : Nat)
    (body_markdown body_plain : String) (attachments : List AttachmentData) :
    Db :=
  let ms := db.messages.map (fun r =>
    if r.account_id == account_id && r.envelope_hash == envelope_hash then
      { r with body_rendered := some body_plain,
               body_markdown := some body_markdown }
    else r)
  let kept := db.attachments.filter (fun t =>
    !(t.account_id == account_id && t.envelope_hash == envelope_hash))
  let fresh := attachments.enum.map (fun p =>
    { account_id := account_id, envelope_hash := envelope_hash, idx := p.1,
      filename := p.2.filename, mime_type := p.2.mime_type,
      data := p.2.data : AttachmentRow })
  { db with messages := ms, attachments := kept ++ fresh }

-- ---------------------------------------------------------------------------
-- queries.rs dual-truth flag operations
-- ---------------------------------------------------------------------------

/-- queries.rs `do_update_flags`: set `flags_local` and `pending_op`,
mirroring the bits into the legacy `is_read` / `is_starred` columns. -/
def do_update_flags (db : Db) (account_id : String) (envelope_hash : Nat)
    (flags_local : Nat) (pending_op : String) : Db :=
  let rs := flags_from_u8 flags_local
  { db with messages := db.messages.map (fun r =>
      if r.account_id == account_id && r.envelope_hash == envelope_hash then
        { r with flags_local := flags_local, pending_op := some pending_op,
                 is_read := if rs.1 then 1 else 0,
                 is_starred := if rs.2 then 1 else 0 }
      else r) }

/-- queries.rs `do_clear_pending_op`: remote success — both flag columns
take the observed server flags and the pending marker is cleared. -/
def do_clear_pending_op (db : Db) (account_id : String) (envelope_hash : Nat)
    (flags_server : Nat) : Db :=
  let rs := flags_from_u8 flags_server
  { db with messages := db.messages.map (fun r =>
      if r.account_id == account_id && r.envelope_hash == envelope_hash then
        { r with flags_server := flags_server, flags_local := flags_server,
                 pending_op := none,
                 is_read := if rs.1 then 1 else 0,
                 is_starred := if rs.2 then 1 else 0 }
      else r) }

/-- queries.rs `do_revert_pending_op`: remote failure — `flags_local`
falls back to `flags_server`, the pending marker is cleared, and the
legacy columns are recomputed from `flags_server` (the SQL `& 1` / `& 2`
tests are the low-bit conditions). -/
def do_revert_pending_op (db : Db) (account_id : String)
    (envelope_hash : Nat) : Db :=
  { db with messages := db.messages.map (fun r =>
      if r.account_id == account_id && r.envelope_hash == envelope_hash then
        { r with flags_local := r.flags_server, pending_op := none,
                 is_read := if r.flags_server % 2 == 1 then 1 else 0,
                 is_starred := if r.flags_server / 2 % 2 == 1 then 1 else 0 }
      else r) }

-- ---------------------------------------------------------------------------
-- queries.rs do_remove_message / do_remove_account
-- ---------------------------------------------------------------------------

/-- queries.rs `do_remove_message`: delete the attachments of the key,
then the message row. -/
def do_remove_message (db : Db) (account_id : String) (envelope_hash : Nat) :
    Db :=
  { db with
    attachments := db.attachments.filter (fun t =>
      !(t.account_id == account_id && t.envelope_hash == envelope_hash)),
    messages := db.messages.filter (fun m =>
      !(m.account_id == account_id && m.envelope_hash == envelope_hash)) }

/-- queries.rs `do_remove_account`: delete the account's attachments,
messages and folders in one transaction. -/
def do_remove_account (db : Db) (account_id : String) : Db :=
  { folders := db.folders.filter (fun r => r.account_id != account_id),
    messages := db.messages.filter (fun m => m.account_id != account_id),
    attachments := db.attachments.filter (fun t => t.account_id != account_id) }

-- ---------------------------------------------------------------------------
-- queries.rs do_search
-- ---------------------------------------------------------------------------

/-- Rust `str::trim` on the character list of a query. -/
def trimChars (l : List Char) : List Char :=
  ((l.dropWhile Char.isWhitespace).reverse.dropWhile Char.isWhitespace).reverse

/-- Rust `str::split_whitespace`: maximal runs of non-whitespace
characters; `cur` accumulates the current run in reverse. -/
def wordsAux : List Char → List Char → List (List Char)
  | [], cur => if cur.isEmpty then [] else [cur.reverse]
  | c :: cs, cur =>
    if c.isWhitespace then
      if cur.isEmpty then wordsAux cs [] else cur.reverse :: wordsAux cs []
    else wordsAux cs (c :: cur)

/-- Rust `str::split_whitespace`. -/
def words (l : List Char) : List (List Char) := wordsAux l []

/-- The FTS MATCH itself runs inside SQLite's FTS5 engine, which is not
repository code; `do_search` therefore takes the match semantics as a
parameter `ftsMatch` relating the rewritten query to a message row.
Query strings are processed as character lists (Rust `str` operations);
`token.length` is the Rust byte length, which coincides with the
character count whenever the token passed the ASCII `is_plain` test. -/
def do_search (db : Db) (query : String)
    (ftsMatch : List Char → MessageRow → Bool) : List MessageSummary :=
  let query := trimChars query.data
  if query.isEmpty then []
  else
    let fts_query : List Char :=
      if query.contains '"' then query
      else
        List.intercalate [' ']
          ((words query).map (fun token =>
            let is_plain := token.all (fun c => c.isAlphanum || c == '_')
            if !is_plain || decide (token.length < 3) ||
                token.getLast? == some '*' then token
            else token ++ ['*']))
    let rows := db.messages.filter (ftsMatch fts_query)
    let sorted := sortLe (fun r1 r2 =>
      decide (r2.timestamp ≤ r1.timestamp)) rows
    (sorted.take 200).map row_to_summary

-- ---------------------------------------------------------------------------
-- src/store/schema.rs — schema-level model of the migrator
-- ---------------------------------------------------------------------------

/-- Schema of one table: its ordered column list and the primary-key
column list (in primary-key order). -/
structure TableSchema where
  columns : List String
  pk : List String
deriving DecidableEq, Repr

/-- The schemas the migrator manipulates, plus whether the FTS table and
triggers exist. -/
structure DbSchema where
  folders : TableSchema
  messages : TableSchema
  attachments : TableSchema
  has_fts : Bool
deriving DecidableEq, Repr

/-- ALTER TABLE ... ADD COLUMN: the expected "duplicate column" error is
swallowed, so an existing column is left alone. -/
def addColumn (t : TableSchema) (c : String) : TableSchema :=
  if t.columns.contains c then t else { t with columns := t.columns ++ [c] }

/-- schema.rs `table_pk_columns`: the primary-key columns in PK order,
each name normalised against the four recognised ones and unknown names
filtered out. -/
def table_pk_columns (t : TableSchema) : List String :=
  (t.pk.map (fun n =>
    if n == "account_id" then "account_id"
    else if n == "envelope_hash" then "envelope_hash"
    else if n == "path" then "path"
    else if n == "idx" then "idx"
    else "")).filter (fun n => !n.isEmpty)

/-- The rebuilt `folders_v2` table of the PK migration. -/
def folders_v2 : TableSchema :=
  { columns := ["account_id", "path", "name", "mailbox_hash",
                "unread_count", "total_count"],
    pk := ["account_id", "path"] }

/-- The rebuilt `messages_v2` table of the PK migration. -/
def messages_v2 : TableSchema :=
  { columns := ["account_id", "envelope_hash", "mailbox_hash", "subject",
                "sender", "date", "timestamp", "is_read", "is_starred",
                "has_attachments", "thread_id", "body_rendered",
                "flags_server", "flags_local", "pending_op", "message_id",
                "in_reply_to", "thread_depth", "body_markdown", "reply_to",
                "recipient"],
    pk := ["account_id", "envelope_hash"] }

/-- The rebuilt `attachments_v2` table of the PK migration. -/
def attachments_v2 : TableSchema :=
  { columns := ["account_id", "envelope_hash", "idx", "filename",
                "mime_type", "data"],
    pk := ["account_id", "envelope_hash", "idx"] }

/-- schema.rs `migrate_to_account_scoped_primary_keys`: introspect the
three primary keys; when all are already account-scoped, return without
touching anything, otherwise drop FTS and rebuild all three tables with
the v2 layouts (CREATE v2 / INSERT...SELECT / DROP / RENAME). -/
def migrate_to_account_scoped_primary_keys (s : DbSchema) : DbSchema :=
  if table_pk_columns s.messages == ["account_id", "envelope_hash"] &&
     table_pk_columns s.folders == ["account_id", "path"] &&
     table_pk_columns s.attachments == ["account_id", "envelope_hash", "idx"]
  then s
  else { folders := folders_v2, messages := messages_v2,
         attachments := attachments_v2, has_fts := false }

/-- The ALTER TABLE messages ADD COLUMN list of `run_migrations`, in
source order. -/
def message_alter_columns : List String :=
  ["flags_server", "flags_local", "pending_op", "message_id",
   "in_reply_to", "thread_depth", "body_markdown", "reply_to",
   "recipient", "account_id"]

/-- schema.rs `run_migrations` at schema level: idempotent ALTERs, the
primary-key rebuild when needed, then dropping and recreating the FTS
table and triggers followed by an index rebuild. -/
def run_migrations (s : DbSchema) : DbSchema :=
  let s := { s with
    messages := message_alter_columns.foldl addColumn s.messages,
    folders := addColumn s.folders "account_id" }
  let s := migrate_to_account_scoped_primary_keys s
  { s with has_fts := true }

/-- The legacy single-account schema (the layout exercised by the
schema.rs migration tests): no account_id anywhere, single-column or
unscoped primary keys. -/
def legacySchema : DbSchema :=
  { folders := { columns := ["path", "name", "mailbox_hash",
                             "unread_count", "total_count"],
                 pk := ["path"] },
    messages := { columns := ["envelope_hash", "mailbox_hash", "subject",
                              "sender", "date", "timestamp", "is_read",
                              "is_starred", "has_attachments", "thread_id",
                              "body_rendered"],
                  pk := ["envelope_hash"] },
    attachments := { columns := ["envelope_hash", "idx", "filename",
                                 "mime_type", "data"],
                     pk := ["envelope_hash", "idx"] },
    has_fts := false }

/-- The schema created by the SCHEMA DDL on a fresh database, before
`run_migrations` runs. -/
def currentSchema : DbSchema :=
  { folders := { columns := ["account_id", "path", "name", "mailbox_hash",
                             "unread_count", "total_count"],
                 pk := ["account_id", "path"] },
    messages := { columns := ["account_id", "envelope_hash", "mailbox_hash",
                              "subject", "sender", "date", "timestamp",
                              "is_read", "is_starred", "has_attachments",
                              "thread_id", "body_rendered"],
                  pk := ["account_id", "envelope_hash"] },
    attachments := { columns := ["account_id", "envelope_hash", "idx",
                                 "filename", "mime_type", "data"],
                     pk := ["account_id", "envelope_hash", "idx"] },
    has_fts := false }

-- ---------------------------------------------------------------------------
-- Views used to state account isolation
-- ---------------------------------------------------------------------------

/-- The rows of one account: the sub-database an operation scoped to
`account_id` is allowed to observe and mutate. -/
def restrictDb (account_id : String) (db : Db) : Db :=
  { folders := db.folders.filter (fun r => r.account_id == account_id),
    messages := db.messages.filter (fun m => m.account_id == account_id),
    attachments := db.attachments.filter (fun t => t.account_id == account_id) }

/-- Modelled from the spec: the search rewriting described in §4.3 —
pass through when the (trimmed) query contains a double-quote, otherwise
split on whitespace and append a star to each token iff it is purely
ASCII alphanumeric or underscore, of length at least 3, and does not
already end in a star.  Stated independently of `do_search` so the code
path can be compared against it. -/
def spec_fts_rewrite (q : List Char) : List Char :=
  if q.contains '"' then q
  else
    List.intercalate [' ']
      ((words q).map (fun token =>
        if token.all (fun c => c.isAlphanum || c == '_') &&
            decide (3 ≤ token.length) && !(token.getLast? == some '*')
        then token ++ ['*'] else token))

-- ---------------------------------------------------------------------------
-- Concrete sample data for counterexamples and witnesses
-- ---------------------------------------------------------------------------

/-- A folder as delivered by the adapter. -/
def sampleFolder (p : String) (h : Nat) : Folder :=
  { name := p, path := p, unread_count := 0, total_count := 0,
    mailbox_hash := h }

/-- A stored folder row. -/
def sampleFolderRow (acct p : String) (h : Nat) : FolderRow :=
  { account_id := acct, path := p, name := p, mailbox_hash := h,
    unread_count := 0, total_count := 0 }

/-- A stored message row in the Clean state with all flags clear. -/
def sampleRow (acct : String) (eh mbox : Nat) : MessageRow :=
  { account_id := acct, envelope_hash := eh, mailbox_hash := mbox,
    subject := "subject", sender := "sender@example.com",
    date := "2026-01-01", timestamp := 100, is_read := 0, is_starred := 0,
    has_attachments := 0, thread_id := none, body_rendered := none,
    flags_server := 0, flags_local := 0, pending_op := none,
    message_id := some "mid", in_reply_to := none, thread_depth := 0,
    body_markdown := none, reply_to := none, recipient := none }

/-- An incoming envelope summary. -/
def sampleSummary (eh mbox : Nat) (rd st : Bool) : MessageSummary :=
  { uid := eh, subject := "subject", from_ := "sender@example.com",
    to_ := "to@example.com", date := "2026-01-01", is_read := rd,
    is_starred := st, has_attachments := false, thread_id := none,
    envelope_hash := eh, timestamp := 100, mailbox_hash := mbox,
    message_id := "mid", in_reply_to := none, reply_to := none,
    thread_depth := 0 }

/-- A stored attachment row. -/
def sampleAttachment (acct : String) (eh i : Nat) : AttachmentRow :=
  { account_id := acct, envelope_hash := eh, idx := i,
    filename := "file.txt", mime_type := "text/plain", data := [104, 105] }

/-- Two accounts, one cached message belonging to account b. -/
def twoAccountDb : Db :=
  { folders := [sampleFolderRow "a" "INBOX" 1, sampleFolderRow "b" "INBOX" 1],
    messages := [sampleRow "b" 42 1],
    attachments := [] }

/-- Incoming folder list with a duplicated path and two distinct handles. -/
def dupPathFolders : List Folder :=
  [sampleFolder "INBOX" 1, sampleFolder "INBOX" 2]

/-- An account with an orphaned attachment row (no matching message),
the state `do_save_body` leaves behind for an unknown message. -/
def orphanDb : Db :=
  { folders := [sampleFolderRow "a" "INBOX" 1],
    messages := [],
    attachments := [sampleAttachment "a" 99 0] }

/-- Account a with three folders, messages in INBOX and Old, and an
attachment on the Old message (the spec's folder-sweep scenario). -/
def sweepDb : Db :=
  { folders := [sampleFolderRow "a" "INBOX" 1, sampleFolderRow "a" "Work" 2,
                sampleFolderRow "a" "Old" 3],
    messages := [sampleRow "a" 5 1, sampleRow "a" 7 3],
    attachments := [sampleAttachment "a" 7 0] }

/-- The incoming folder list that drops Old. -/
def sweepIncoming : List Folder :=
  [sampleFolder "INBOX" 1, sampleFolder "Work" 2]

/-- The database produced by the sweep scenario. -/
def sweepRes : Db :=
  match do_save_folders sweepDb "a" sweepIncoming with
  | .ok d => d
  | .error _ => { folders := [], messages := [], attachments := [] }

/-- One Dirty message: a local mark-read+star edit is in flight. -/
def dirtyDb : Db :=
  { folders := [sampleFolderRow "a" "INBOX" 1],
    messages := [{ (sampleRow "a" 42 1) with
                    flags_local := 3,
                    flags_server := 0,
                    pending_op := some "mark_read",
                    is_read := 1,
                    is_starred := 1 }],
    attachments := [] }

/-- One Clean message. -/
def cleanDb : Db :=
  { folders := [sampleFolderRow "a" "INBOX" 1],
    messages := [sampleRow "a" 42 1],
    attachments := [] }

-- ---------------------------------------------------------------------------
-- General list lemmas
-- ---------------------------------------------------------------------------

theorem filter_map_of_preserve {α : Type} (f : α → α) (p : α → Bool)
    (l : List α) (hp : ∀ r ∈ l, p (f r) = p r)
    (hid : ∀ r ∈ l, p r = true → f r = r) :
    (l.map f).filter p = l.filter p := by
  induction l with
  | nil => rfl
  | cons x xs ih =>
    have hx := hp x (List.mem_cons_self x xs)
    simp only [List.map_cons, List.filter_cons]
    by_cases h : p x = true
    · rw [hx, h, hid x (List.mem_cons_self x xs) h]
      simp only [if_true]
      rw [ih (fun r hr => hp r (List.mem_cons_of_mem x hr))
        (fun r hr => hid r (List.mem_cons_of_mem x hr))]
    · have h' : p x = false := Bool.eq_false_iff.mpr h
      rw [hx, h']
      simp only [Bool.false_eq_true, if_false]
      exact ih (fun r hr => hp r (List.mem_cons_of_mem x hr))
        (fun r hr => hid r (List.mem_cons_of_mem x hr))

theorem filter_filter_of_imp {α : Type} (p q : α → Bool) (l : List α)
    (h : ∀ r, p r = true → q r = true) :
    (l.filter q).filter p = l.filter p := by
  induction l with
  | nil => rfl
  | cons x xs ih =>
    simp only [List.filter_cons]
    by_cases hq : q x = true
    · rw [hq]
      simp only [if_true, List.filter_cons, ih]
    · have hp : p x = false := by
        cases hpx : p x with
        | true => exact absurd (h x hpx) hq
        | false => rfl
      have hq' : q x = false := Bool.eq_false_iff.mpr hq
      rw [hq', hp]
      simp only [Bool.false_eq_true, if_false, ih]

theorem filter_append_none {α : Type} (p : α → Bool) (l1 l2 : List α)
    (h : ∀ r ∈ l2, p r = false) :
    (l1 ++ l2).filter p = l1.filter p := by
  rw [List.filter_append]
  have : l2.filter p = [] := by
    apply List.filter_eq_nil_iff.mpr
    intro a ha
    simp [h a ha]
  rw [this, List.append_nil]

theorem map_id_of_mem {α : Type} (f : α → α) (l : List α)
    (h : ∀ x ∈ l, f x = x) : l.map f = l := by
  induction l with
  | nil => rfl
  | cons x xs ih =>
    simp only [List.map_cons, h x (List.mem_cons_self x xs)]
    rw [ih (fun y hy => h y (List.mem_cons_of_mem x hy))]

theorem find?_filter_of_imp {α : Type} (p q : α → Bool) (l : List α)
    (h : ∀ r, q r = true → p r = true) :
    (l.filter p).find? q = l.find? q := by
  induction l with
  | nil => rfl
  | cons x xs ih =>
    simp only [List.filter_cons]
    by_cases hp : p x = true
    · rw [hp]
      simp only [if_true, List.find?_cons, ih]
    · have hq : q x = false := by
        cases hqx : q x with
        | true => exact absurd (h x hqx) hp
        | false => rfl
      have hp' : p x = false := Bool.eq_false_iff.mpr hp
      rw [hp']
      simp only [Bool.false_eq_true, if_false, List.find?_cons, hq, ih]

theorem mem_insertLe {α : Type} (le : α → α → Bool) (x y : α)
    (l : List α) : y ∈ insertLe le x l ↔ y = x ∨ y ∈ l := by
  induction l with
  | nil => simp [insertLe]
  | cons z zs ih =>
    simp only [insertLe]
    by_cases h : le x z = true
    · simp [h]
    · have h' : le x z = false := Bool.eq_false_iff.mpr h
      simp only [h', Bool.false_eq_true, if_false, List.mem_cons, ih]
      tauto

theorem mem_sortLe {α : Type} (le : α → α → Bool) (x : α) (l : List α) :
    x ∈ sortLe le l ↔ x ∈ l := by
  induction l with
  | nil => simp [sortLe]
  | cons y ys ih =>
    simp only [sortLe, mem_insertLe, List.mem_cons, ih]

theorem pairwise_insertLe {α : Type} (le : α → α → Bool)
    (htot : ∀ a b, le a b = true ∨ le b a = true)
    (htrans : ∀ a b c, le a b = true → le b c = true → le a c = true)
    (x : α) (l : List α) (h : l.Pairwise (fun a b => le a b = true)) :
    (insertLe le x l).Pairwise (fun a b => le a b = true) := by
  induction l with
  | nil => simp [insertLe]
  | cons y ys ih =>
    simp only [insertLe]
    rcases List.pairwise_cons.mp h with ⟨hy, hys⟩
    by_cases hxy : le x y = true
    · rw [if_pos hxy]
      apply List.pairwise_cons.mpr
      refine ⟨?_, h⟩
      intro b hb
      rcases List.mem_cons.mp hb with rfl | hb
      · exact hxy
      · exact htrans x y b hxy (hy b hb)
    · have hyx : le y x = true := (htot x y).resolve_left hxy
      rw [if_neg hxy]
      apply List.pairwise_cons.mpr
      constructor
      · intro b hb
        rcases (mem_insertLe le x b ys).mp hb with rfl | hb
        · exact hyx
        · exact hy b hb
      · exact ih hys

theorem pairwise_sortLe {α : Type} (le : α → α → Bool)
    (htot : ∀ a b, le a b = true ∨ le b a = true)
    (htrans : ∀ a b c, le a b = true → le b c = true → le a c = true)
    (l : List α) :
    (sortLe le l).Pairwise (fun a b => le a b = true) := by
  induction l with
  | nil => simp [sortLe]
  | cons x xs ih => exact pairwise_insertLe le htot htrans x (sortLe le xs) ih

-- ---------------------------------------------------------------------------
-- Account isolation: frame lemmas for every account-scoped operation
-- ---------------------------------------------------------------------------

theorem acct_beq_false {A B r : String} (h : B ≠ A) (hr : (r == B) = true) :
    (r == A) = false := by
  have hrB : r = B := by simpa using hr
  subst hrB
  simpa using h

theorem filter_map_guarded {α : Type} (p cond : α → Bool) (g : α → α)
    (l : List α) (hg : ∀ r, p (g r) = p r)
    (hpc : ∀ r, p r = true → cond r = false) :
    (l.map (fun r => if cond r then g r else r)).filter p = l.filter p := by
  apply filter_map_of_preserve
  · intro r _
    by_cases hc : cond r = true
    · simp [hc, hg]
    · simp [Bool.eq_false_iff.mpr hc]
  · intro r _ hp
    simp [hpc r hp]

theorem save_msg_step_filter_acct (A B : String) (h : B ≠ A) (mbox : Nat)
    (ps : List Nat) (ms : List MessageRow) (m : MessageSummary) :
    (save_msg_step A mbox ps ms m).filter (fun r => r.account_id == B) =
      ms.filter (fun r => r.account_id == B) := by
  unfold save_msg_step
  by_cases h1 : ps.contains m.envelope_hash = true
  · rw [if_pos h1]
    apply filter_map_guarded
    · intro r
      by_cases hc : (r.account_id == A && r.envelope_hash == m.envelope_hash &&
          r.pending_op.isSome) = true
      · simp only [if_pos hc]
      · simp only [if_neg hc]
    · intro r hp
      simp [acct_beq_false h hp]
  · rw [if_neg h1]
    by_cases h2 : ms.any (fun r => r.account_id == A &&
        r.envelope_hash == m.envelope_hash) = true
    · rw [if_pos h2]
    · rw [if_neg h2]
      apply filter_append_none
      intro r hr
      simp only [List.mem_singleton] at hr
      subst hr
      simpa using fun hAB => h hAB.symm

theorem foldl_save_msg_filter_acct (A B : String) (h : B ≠ A) (mbox : Nat)
    (ps : List Nat) :
    ∀ (l : List MessageSummary) (ms : List MessageRow),
      (l.foldl (save_msg_step A mbox ps) ms).filter
        (fun r => r.account_id == B) =
        ms.filter (fun r => r.account_id == B) := by
  intro l
  induction l with
  | nil => intro ms; rfl
  | cons m l ih =>
    intro ms
    simp only [List.foldl_cons]
    rw [ih, save_msg_step_filter_acct A B h]

theorem upsertFolder_filter_acct (A B : String) (h : B ≠ A)
    (fs : List FolderRow) (f : Folder) (fs' : List FolderRow)
    (hok : upsertFolder A fs f = .ok fs') :
    fs'.filter (fun r => r.account_id == B) =
      fs.filter (fun r => r.account_id == B) := by
  unfold upsertFolder at hok
  by_cases h1 : fs.any (fun r => r.account_id == A && r.path != f.path &&
      r.mailbox_hash == f.mailbox_hash) = true
  · rw [if_pos h1] at hok
    cases hok
  · rw [if_neg h1] at hok
    by_cases h2 : fs.any (fun r => r.account_id == A && r.path == f.path) = true
    · rw [if_pos h2] at hok
      cases hok
      apply filter_map_guarded
      · intro r
        by_cases hc : (r.account_id == A && r.path == f.path) = true
        · simp only [if_pos hc]
        · simp only [if_neg hc]
      · intro r hp
        simp [acct_beq_false h hp]
    · rw [if_neg h2] at hok
      cases hok
      apply filter_append_none
      intro r hr
      simp only [List.mem_singleton] at hr
      subst hr
      simpa using fun hAB => h hAB.symm

theorem foldlM_upsert_filter_acct (A B : String) (h : B ≠ A) :
    ∀ (l : List Folder) (fs fs' : List FolderRow),
      l.foldlM (upsertFolder A) fs = .ok fs' →
      fs'.filter (fun r => r.account_id == B) =
        fs.filter (fun r => r.account_id == B) := by
  intro l
  induction l with
  | nil =>
    intro fs fs' hok
    simp only [List.foldlM_nil] at hok
    cases hok
    rfl
  | cons f l ih =>
    intro fs fs' hok
    simp only [List.foldlM_cons] at hok
    cases h1 : upsertFolder A fs f with
    | error e => rw [h1] at hok; cases hok
    | ok fs1 =>
      rw [h1] at hok
      replace hok : l.foldlM (upsertFolder A) fs1 = .ok fs' := by simpa using hok
      rw [ih fs1 fs' hok, upsertFolder_filter_acct A B h fs f fs1 h1]

theorem frame_update_flags (db : Db) (A B : String) (h : B ≠ A)
    (eh fl : Nat) (op : String) :
    restrictDb B (do_update_flags db A eh fl op) = restrictDb B db := by
  simp only [do_update_flags, restrictDb, Db.mk.injEq, true_and, and_true]
  apply filter_map_guarded
  · intro r
    by_cases hc : (r.account_id == A && r.envelope_hash == eh) = true
    · simp only [if_pos hc]
    · simp only [if_neg hc]
  · intro r hp
    simp [acct_beq_false h hp]

theorem frame_clear_pending (db : Db) (A B : String) (h : B ≠ A)
    (eh fsv : Nat) :
    restrictDb B (do_clear_pending_op db A eh fsv) = restrictDb B db := by
  simp only [do_clear_pending_op, restrictDb, Db.mk.injEq, true_and, and_true]
  apply filter_map_guarded
  · intro r
    by_cases hc : (r.account_id == A && r.envelope_hash == eh) = true
    · simp only [if_pos hc]
    · simp only [if_neg hc]
  · intro r hp
    simp [acct_beq_false h hp]

theorem frame_revert_pending (db : Db) (A B : String) (h : B ≠ A)
    (eh : Nat) :
    restrictDb B (do_revert_pending_op db A eh) = restrictDb B db := by
  simp only [do_revert_pending_op, restrictDb, Db.mk.injEq, true_and, and_true]
  apply filter_map_guarded
  · intro r
    by_cases hc : (r.account_id == A && r.envelope_hash == eh) = true
    · simp only [if_pos hc]
    · simp only [if_neg hc]
  · intro r hp
    simp [acct_beq_false h hp]

theorem frame_remove_message (db : Db) (A B : String) (h : B ≠ A)
    (eh : Nat) :
    restrictDb B (do_remove_message db A eh) = restrictDb B db := by
  simp only [do_remove_message, restrictDb, Db.mk.injEq, true_and, and_true]
  constructor
  · apply filter_filter_of_imp
    intro r hp
    simp [acct_beq_false h hp]
  · apply filter_filter_of_imp
    intro r hp
    simp [acct_beq_false h hp]

theorem frame_remove_account (db : Db) (A B : String) (h : B ≠ A) :
    restrictDb B (do_remove_account db A) = restrictDb B db := by
  simp only [do_remove_account, restrictDb, Db.mk.injEq]
  refine ⟨?_, ?_, ?_⟩ <;>
  · apply filter_filter_of_imp
    intro r hp
    have hrB : r.account_id = B := by simpa using hp
    simp only [bne, hrB, Bool.not_eq_eq_eq_not, Bool.not_true, beq_eq_false_iff_ne,
      ne_eq]
    exact h

theorem frame_save_body (db : Db) (A B : String) (h : B ≠ A) (eh : Nat)
    (md pl : String) (atts : List AttachmentData) :
    restrictDb B (do_save_body db A eh md pl atts) = restrictDb B db := by
  simp only [do_save_body, restrictDb, Db.mk.injEq, true_and]
  constructor
  · apply filter_map_guarded
    · intro r
      by_cases hc : (r.account_id == A && r.envelope_hash == eh) = true
      · simp only [if_pos hc]
      · simp only [if_neg hc]
    · intro r hp
      simp [acct_beq_false h hp]
  · rw [filter_append_none]
    · apply filter_filter_of_imp
      intro r hp
      simp [acct_beq_false h hp]
    · intro r hr
      simp only [List.mem_map] at hr
      obtain ⟨p, _, rfl⟩ := hr
      simpa using fun hAB => h hAB.symm

theorem frame_save_messages (db : Db) (A B : String) (h : B ≠ A)
    (mbox : Nat) (msgs : List MessageSummary) :
    restrictDb B (do_save_messages db A mbox msgs) = restrictDb B db := by
  simp only [do_save_messages, restrictDb, Db.mk.injEq, true_and]
  constructor
  · rw [foldl_save_msg_filter_acct A B h]
    apply filter_filter_of_imp
    intro r hp
    simp [acct_beq_false h hp]
  · apply filter_filter_of_imp
    intro r hp
    simp [acct_beq_false h hp]

theorem frame_save_folders (db : Db) (A B : String) (h : B ≠ A)
    (folders : List Folder) (res : Db)
    (hok : do_save_folders db A folders = .ok res) :
    restrictDb B res = restrictDb B db := by
  unfold do_save_folders at hok
  cases h1 : folders.foldlM (upsertFolder A) db.folders with
  | error e => rw [h1] at hok; cases hok
  | ok fs =>
    rw [h1] at hok
    have hfs := foldlM_upsert_filter_acct A B h folders db.folders fs h1
    dsimp only at hok
    by_cases h2 : (folders.map (fun f => f.mailbox_hash)).isEmpty = true
    · rw [if_pos h2] at hok
      cases hok
      simp only [restrictDb, Db.mk.injEq]
      refine ⟨?_, ?_, ?_⟩
      · rw [filter_filter_of_imp _ _ _ (fun (r : FolderRow) hp => by
          have hrB : r.account_id = B := by simpa using hp
          simp only [bne, hrB, Bool.not_eq_eq_eq_not, Bool.not_true,
            beq_eq_false_iff_ne, ne_eq]
          exact h)]
        exact hfs
      · apply filter_filter_of_imp
        intro r hp
        have hrB : r.account_id = B := by simpa using hp
        simp only [bne, hrB, Bool.not_eq_eq_eq_not, Bool.not_true,
          beq_eq_false_iff_ne, ne_eq]
        exact h
      · apply filter_filter_of_imp
        intro r hp
        simp [acct_beq_false h hp]
    · rw [if_neg h2] at hok
      cases hok
      simp only [restrictDb, Db.mk.injEq]
      refine ⟨?_, ?_, ?_⟩
      · rw [filter_filter_of_imp _ _ _ (fun (r : FolderRow) hp => by
          simp [acct_beq_false h hp])]
        exact hfs
      · apply filter_filter_of_imp
        intro r hp
        simp [acct_beq_false h hp]
      · apply filter_filter_of_imp
        intro r hp
        simp [acct_beq_false h hp]

theorem load_folders_restrict (db : Db) (A : String) :
    do_load_folders db A = do_load_folders (restrictDb A db) A := by
  simp only [do_load_folders, restrictDb]
  rw [filter_filter_of_imp _ _ _ (fun r hp => hp)]

theorem load_messages_restrict (db : Db) (A : String) (mbox lim off : Nat) :
    do_load_messages db A mbox lim off =
      do_load_messages (restrictDb A db) A mbox lim off := by
  simp only [do_load_messages, restrictDb]
  rw [filter_filter_of_imp _ _ _ (fun r hp => by
    simp only [Bool.and_eq_true] at hp
    exact hp.2)]

theorem load_body_restrict (db : Db) (A : String) (eh : Nat) :
    do_load_body db A eh = do_load_body (restrictDb A db) A eh := by
  simp only [do_load_body, restrictDb]
  rw [find?_filter_of_imp _ _ _ (fun r hp => by
    simp only [Bool.and_eq_true] at hp
    exact hp.1)]
  rw [filter_filter_of_imp _ _ _ (fun r hp => by
    simp only [Bool.and_eq_true] at hp
    exact hp.1)]

-- ---------------------------------------------------------------------------
-- Claim C1
-- ---------------------------------------------------------------------------

/-- C1 (counterexample): the claim lists `search` among the operations
that, invoked for an account A, return no row of another account B.
But `do_search` (and `CacheHandle::search`) takes no account argument at
all: on a cache holding accounts a and b where every message row belongs
to b, a search — in particular one issued on behalf of account a —
returns b's message 42.  This refutes the claim as stated. -/
theorem search_observes_other_account :
    ("b" : String) ≠ "a" ∧
    (∀ r ∈ twoAccountDb.messages, r.account_id = "b") ∧
    (do_search twoAccountDb "subject"
      (fun q r => q == "subject*".data && r.subject == "subject")).map
      (fun s => s.envelope_hash) = [42] := by
  refine ⟨by decide, by decide, by decide⟩

/-- C1 (amended): every cache operation that takes an account_id —
save_folders, load_folders, save_messages, load_messages, load_body,
save_body, update_flags, clear_pending_op, revert_pending_op,
remove_message, remove_account — neither mutates rows of any other
account B (the B-restriction of the database is unchanged by every
write, including a successful save_folders) nor observes them (every
read depends only on the A-restriction of the database).  `search`
is excluded: it takes no account and searches all accounts. -/
theorem account_isolation_amended (db : Db) (A B : String) (h : B ≠ A) :
    (∀ folders res, do_save_folders db A folders = .ok res →
      restrictDb B res = restrictDb B db) ∧
    (∀ mbox msgs,
      restrictDb B (do_save_messages db A mbox msgs) = restrictDb B db) ∧
    (∀ eh md pl atts,
      restrictDb B (do_save_body db A eh md pl atts) = restrictDb B db) ∧
    (∀ eh fl op,
      restrictDb B (do_update_flags db A eh fl op) = restrictDb B db) ∧
    (∀ eh fsv,
      restrictDb B (do_clear_pending_op db A eh fsv) = restrictDb B db) ∧
    (∀ eh, restrictDb B (do_revert_pending_op db A eh) = restrictDb B db) ∧
    (∀ eh, restrictDb B (do_remove_message db A eh) = restrictDb B db) ∧
    (restrictDb B (do_remove_account db A) = restrictDb B db) ∧
    (do_load_folders db A = do_load_folders (restrictDb A db) A) ∧
    (∀ mbox lim off, do_load_messages db A mbox lim off =
      do_load_messages (restrictDb A db) A mbox lim off) ∧
    (∀ eh, do_load_body db A eh = do_load_body (restrictDb A db) A eh) :=
  ⟨fun folders res hok => frame_save_folders db A B h folders res hok,
   fun mbox msgs => frame_save_messages db A B h mbox msgs,
   fun eh md pl atts => frame_save_body db A B h eh md pl atts,
   fun eh fl op => frame_update_flags db A B h eh fl op,
   fun eh fsv => frame_clear_pending db A B h eh fsv,
   fun eh => frame_revert_pending db A B h eh,
   fun eh => frame_remove_message db A B h eh,
   frame_remove_account db A B h,
   load_folders_restrict db A,
   fun mbox lim off => load_messages_restrict db A mbox lim off,
   fun eh => load_body_restrict db A eh⟩

/-- C1 (witness): the amended isolation theorem instantiated on the
concrete two-account cache, distinct accounts discharged by decide. -/
theorem account_isolation_amended_witness :
    ("b" : String) ≠ "a" ∧
    restrictDb "b" (do_update_flags twoAccountDb "a" 42 2 "star") =
      restrictDb "b" twoAccountDb :=
  ⟨by decide,
   (account_isolation_amended twoAccountDb "a" "b" (by decide)).2.2.2.1
     42 2 "star"⟩

-- ---------------------------------------------------------------------------
-- Claim C3
-- ---------------------------------------------------------------------------

theorem row_to_summary_bits (r : MessageRow) :
    (row_to_summary r).is_read =
      ((if r.pending_op.isSome then r.flags_local else r.flags_server)
        % 2 == 1) ∧
    (row_to_summary r).is_starred =
      ((if r.pending_op.isSome then r.flags_local else r.flags_server)
        / 2 % 2 == 1) := by
  unfold row_to_summary flags_from_u8
  set x := if r.pending_op.isSome then r.flags_local else r.flags_server
  constructor
  · simp only []
    congr 1
    omega
  · simp only []
    congr 1
    omega

theorem mem_of_mem_sorted_page (le : MessageRow → MessageRow → Bool)
    (rows : List MessageRow) (lim off : Nat) (r : MessageRow)
    (h : r ∈ ((sortLe le rows).drop off).take lim) : r ∈ rows := by
  have h1 : r ∈ (sortLe le rows).drop off := List.take_subset _ _ h
  have h2 : r ∈ sortLe le rows := List.drop_subset _ _ h1
  exact (mem_sortLe le r rows).mp h2

/-- C3: both `load_messages` and `search` report effective flags — every
returned summary comes from a stored row via `row_to_summary`, with
`is_read` equal to bit 0 and `is_starred` equal to bit 1 of
`flags_local` when `pending_op` is set and of `flags_server` when it is
NULL. -/
theorem effective_flag_law (db : Db) (a : String) (mbox lim off : Nat)
    (q : String) (matcher : List Char → MessageRow → Bool) :
    (∀ s ∈ do_load_messages db a mbox lim off, ∃ r ∈ db.messages,
      s = row_to_summary r ∧
      s.is_read = ((if r.pending_op.isSome then r.flags_local
        else r.flags_server) % 2 == 1) ∧
      s.is_starred = ((if r.pending_op.isSome then r.flags_local
        else r.flags_server) / 2 % 2 == 1)) ∧
    (∀ s ∈ do_search db q matcher, ∃ r ∈ db.messages,
      s = row_to_summary r ∧
      s.is_read = ((if r.pending_op.isSome then r.flags_local
        else r.flags_server) % 2 == 1) ∧
      s.is_starred = ((if r.pending_op.isSome then r.flags_local
        else r.flags_server) / 2 % 2 == 1)) := by
  constructor
  · intro s hs
    simp only [do_load_messages, List.mem_map] at hs
    obtain ⟨r, hr, rfl⟩ := hs
    have hrows := mem_of_mem_sorted_page _ _ _ _ _ hr
    have hmem : r ∈ db.messages := (List.mem_filter.mp hrows).1
    exact ⟨r, hmem, rfl, (row_to_summary_bits r).1, (row_to_summary_bits r).2⟩
  · intro s hs
    simp only [do_search] at hs
    by_cases hq : (trimChars q.data).isEmpty = true
    · rw [if_pos hq] at hs
      cases hs
    · rw [if_neg hq] at hs
      simp only [List.mem_map] at hs
      obtain ⟨r, hr, rfl⟩ := hs
      have h1 : r ∈ sortLe (fun r1 r2 => decide (r2.timestamp ≤ r1.timestamp))
          (db.messages.filter _) := List.take_subset _ _ hr
      have h2 := (mem_sortLe _ r _).mp h1
      have hmem : r ∈ db.messages := (List.mem_filter.mp h2).1
      exact ⟨r, hmem, rfl, (row_to_summary_bits r).1,
        (row_to_summary_bits r).2⟩

/-- C3 (witness): the law instantiated on the concrete cache: the single
summary returned for account b's INBOX originates from a stored row and
carries that row's effective flag bits. -/
theorem effective_flag_law_witness :
    ∃ r ∈ twoAccountDb.messages,
      row_to_summary (sampleRow "b" 42 1) = row_to_summary r ∧
      (row_to_summary (sampleRow "b" 42 1)).is_read =
        ((if r.pending_op.isSome then r.flags_local
          else r.flags_server) % 2 == 1) ∧
      (row_to_summary (sampleRow "b" 42 1)).is_starred =
        ((if r.pending_op.isSome then r.flags_local
          else r.flags_server) / 2 % 2 == 1) :=
  (effective_flag_law twoAccountDb "b" 1 50 0 "x" (fun _ _ => true)).1
    (row_to_summary (sampleRow "b" 42 1)) (by decide)

-- ---------------------------------------------------------------------------
-- Claim C9
-- ---------------------------------------------------------------------------

/-- C9: when no row matches (account_id, envelope_hash), each of
update_flags, clear_pending_op and revert_pending_op succeeds as a
zero-row UPDATE and leaves the database entirely unchanged, so a caller
cannot tell a resolved flag operation from one aimed at a message that
was already swept away. -/
theorem flag_ops_on_missing_row_are_noops (db : Db) (a : String)
    (eh fl fsv : Nat) (verb : String)
    (h : ∀ r ∈ db.messages, ¬(r.account_id = a ∧ r.envelope_hash = eh)) :
    do_update_flags db a eh fl verb = db ∧
    do_clear_pending_op db a eh fsv = db ∧
    do_revert_pending_op db a eh = db := by
  have hid : ∀ (f : MessageRow → MessageRow),
      (db.messages.map (fun r =>
        if r.account_id == a && r.envelope_hash == eh then f r else r)) =
        db.messages := by
    intro f
    apply map_id_of_mem
    intro r hr
    rw [if_neg]
    simp only [Bool.and_eq_true, beq_iff_eq]
    exact fun hc => h r hr ⟨hc.1, hc.2⟩
  refine ⟨?_, ?_, ?_⟩
  · simp only [do_update_flags]
    rw [hid]
  · simp only [do_clear_pending_op]
    rw [hid]
  · simp only [do_revert_pending_op]
    rw [hid]

/-- C9 (witness): the no-op law applied at a concrete cache whose only
message belongs to another account. -/
theorem flag_ops_on_missing_row_are_noops_witness :
    do_update_flags twoAccountDb "a" 42 3 "star" = twoAccountDb ∧
    do_clear_pending_op twoAccountDb "a" 42 0 = twoAccountDb ∧
    do_revert_pending_op twoAccountDb "a" 42 = twoAccountDb :=
  flag_ops_on_missing_row_are_noops twoAccountDb "a" 42 3 0 "star"
    (by decide)

-- ---------------------------------------------------------------------------
-- Claim C10
-- ---------------------------------------------------------------------------

/-- C10: `save_body` for a missing (account_id, envelope_hash) succeeds
without making a body loadable — the messages table is unchanged and a
later `load_body` for the same key still returns nothing — yet every
attachment passed in is inserted anyway (the schema declares foreign
keys but the connection never enables them), leaving orphan attachment
rows unreachable through `load_body`. -/
theorem save_body_on_missing_row (db : Db) (a : String) (eh : Nat)
    (md pl : String) (atts : List AttachmentData)
    (h : ∀ r ∈ db.messages, ¬(r.account_id = a ∧ r.envelope_hash = eh)) :
    (do_save_body db a eh md pl atts).messages = db.messages ∧
    do_load_body (do_save_body db a eh md pl atts) a eh = none ∧
    ∀ p ∈ atts.enum,
      ({ account_id := a, envelope_hash := eh, idx := p.1,
         filename := p.2.filename, mime_type := p.2.mime_type,
         data := p.2.data } : AttachmentRow) ∈
        (do_save_body db a eh md pl atts).attachments := by
  have hmsg : (do_save_body db a eh md pl atts).messages = db.messages := by
    simp only [do_save_body]
    apply map_id_of_mem
    intro r hr
    rw [if_neg]
    simp only [Bool.and_eq_true, beq_iff_eq]
    exact fun hc => h r hr ⟨hc.1, hc.2⟩
  refine ⟨hmsg, ?_, ?_⟩
  · simp only [do_load_body, hmsg]
    rw [List.find?_eq_none.mpr]
    intro r hr
    simp only [Bool.and_eq_true, beq_iff_eq, not_and]
    exact fun h1 h2 => h r hr ⟨h1, h2⟩
  · intro p hp
    simp only [do_save_body]
    exact List.mem_append_right _ (List.mem_map.mpr ⟨p, hp, rfl⟩)

/-- C10 (witness): a body save for the absent key (a, 42) leaves the
messages untouched, load_body still returns none, and the orphan
attachment row is present. -/
theorem save_body_on_missing_row_witness :
    (do_save_body twoAccountDb "a" 42 "md" "plain"
      [⟨"file.txt", "text/plain", [104, 105]⟩]).messages =
      twoAccountDb.messages ∧
    do_load_body (do_save_body twoAccountDb "a" 42 "md" "plain"
      [⟨"file.txt", "text/plain", [104, 105]⟩]) "a" 42 = none := by
  have H := save_body_on_missing_row twoAccountDb "a" 42 "md" "plain"
    [⟨"file.txt", "text/plain", [104, 105]⟩] (by decide)
  exact ⟨H.1, H.2.1⟩

-- ---------------------------------------------------------------------------
-- Claim C5
-- ---------------------------------------------------------------------------

/-- C5: from a Clean row (pending_op NULL, flags_local = flags_server,
legacy columns in sync), `update_flags(new_local, verb)` followed by
`revert_pending_op` restores the database exactly, so load_messages
reports the original effective flags afterwards; between the two calls
every matching row reports the bits of new_local. -/
theorem optimistic_flag_round_trip (db : Db) (a : String)
    (eh new_local : Nat) (verb : String)
    (hclean : ∀ r ∈ db.messages, r.account_id = a → r.envelope_hash = eh →
      r.pending_op = none ∧ r.flags_local = r.flags_server ∧
      r.is_read = (if r.flags_server % 2 == 1 then 1 else 0) ∧
      r.is_starred = (if r.flags_server / 2 % 2 == 1 then 1 else 0)) :
    do_revert_pending_op (do_update_flags db a eh new_local verb) a eh = db ∧
    (∀ r ∈ (do_update_flags db a eh new_local verb).messages,
      r.account_id = a → r.envelope_hash = eh →
      (row_to_summary r).is_read = (new_local % 2 == 1) ∧
      (row_to_summary r).is_starred = (new_local / 2 % 2 == 1)) ∧
    (∀ mbox lim off, do_load_messages
      (do_revert_pending_op (do_update_flags db a eh new_local verb) a eh)
      a mbox lim off = do_load_messages db a mbox lim off) := by
  have hround :
      do_revert_pending_op (do_update_flags db a eh new_local verb) a eh
        = db := by
    obtain ⟨dbf, dbm, dba⟩ := db
    simp only [do_update_flags, do_revert_pending_op, List.map_map,
      Db.mk.injEq, true_and, and_true]
    apply map_id_of_mem
    intro r hr
    simp only [Function.comp_apply]
    by_cases hc : (r.account_id == a && r.envelope_hash == eh) = true
    · have hc' : r.account_id = a ∧ r.envelope_hash = eh := by
        simpa using hc
      obtain ⟨h1, h2, h3, h4⟩ := hclean r hr hc'.1 hc'.2
      rw [if_pos hc]
      rw [if_pos (show _ = true by simpa using hc')]
      cases r
      simp_all
    · rw [if_neg hc, if_neg hc]
  refine ⟨hround, ?_, fun mbox lim off => by rw [hround]⟩
  intro r hrm hacct heh
  simp only [do_update_flags, List.mem_map] at hrm
  obtain ⟨r0, hr0, hfr⟩ := hrm
  by_cases hc : (r0.account_id == a && r0.envelope_hash == eh) = true
  · have hr : r = { r0 with
        flags_local := new_local,
        pending_op := some verb,
        is_read := if (flags_from_u8 new_local).1 then 1 else 0,
        is_starred := if (flags_from_u8 new_local).2 then 1 else 0 } := by
      rw [← hfr, if_pos hc]
    subst hr
    constructor
    · rw [(row_to_summary_bits _).1]
      simp
    · rw [(row_to_summary_bits _).2]
      simp
  · have hr : r = r0 := by rw [← hfr, if_neg hc]
    subst hr
    exact absurd (by simp [hacct, heh]) hc

/-- C5 (witness): the spec's optimistic-star scenario: starring envelope
42 and reverting restores the Clean cache; the intermediate row reports
the bits of 0b10. -/
theorem optimistic_flag_round_trip_witness :
    do_revert_pending_op (do_update_flags cleanDb "a" 42 2 "star") "a" 42
      = cleanDb ∧
    (row_to_summary { (sampleRow "a" 42 1) with
        flags_local := 2,
        pending_op := some "star",
        is_starred := 1 }).is_read = (2 % 2 == 1) ∧
    (row_to_summary { (sampleRow "a" 42 1) with
        flags_local := 2,
        pending_op := some "star",
        is_starred := 1 }).is_starred = (2 / 2 % 2 == 1) := by
  have H := optimistic_flag_round_trip cleanDb "a" 42 2 "star" (by decide)
  have H2 := H.2.1 { (sampleRow "a" 42 1) with
      flags_local := 2,
      pending_op := some "star",
      is_starred := 1 } (by decide) (by decide) (by decide)
  exact ⟨H.1, H2.1, H2.2⟩

-- ---------------------------------------------------------------------------
-- Claim C2
-- ---------------------------------------------------------------------------

theorem save_msg_step_mem (a : String) (mbox : Nat) (ps : List Nat)
    (ms : List MessageRow) (m' : MessageSummary) (r' : MessageRow)
    (h : r' ∈ ms) :
    ∃ r'' ∈ save_msg_step a mbox ps ms m',
      r''.account_id = r'.account_id ∧
      r''.envelope_hash = r'.envelope_hash ∧
      r''.pending_op = r'.pending_op ∧
      r''.flags_local = r'.flags_local ∧
      (r''.flags_server = r'.flags_server ∨
        (m'.envelope_hash = r'.envelope_hash ∧
         r''.flags_server = flags_to_u8 m'.is_read m'.is_starred)) := by
  unfold save_msg_step
  by_cases h1 : ps.contains m'.envelope_hash = true
  · rw [if_pos h1]
    refine ⟨_, List.mem_map_of_mem _ h, ?_⟩
    by_cases hc : (r'.account_id == a &&
        r'.envelope_hash == m'.envelope_hash && r'.pending_op.isSome) = true
    · rw [if_pos hc]
      refine ⟨rfl, rfl, rfl, rfl, Or.inr ⟨?_, rfl⟩⟩
      have heq : (r'.envelope_hash == m'.envelope_hash) = true := by
        simp only [Bool.and_eq_true] at hc
        exact hc.1.2
      exact (beq_iff_eq.mp heq).symm
    · rw [if_neg hc]
      exact ⟨rfl, rfl, rfl, rfl, Or.inl rfl⟩
  · rw [if_neg h1]
    by_cases h2 : (ms.any (fun r => r.account_id == a &&
        r.envelope_hash == m'.envelope_hash)) = true
    · rw [if_pos h2]
      exact ⟨r', h, rfl, rfl, rfl, rfl, Or.inl rfl⟩
    · rw [if_neg h2]
      exact ⟨r', List.mem_append_left _ h, rfl, rfl, rfl, rfl, Or.inl rfl⟩

theorem save_msg_step_hits (a : String) (mbox : Nat) (ps : List Nat)
    (ms : List MessageRow) (m' : MessageSummary) (r' : MessageRow)
    (h : r' ∈ ms) (hacct : r'.account_id = a)
    (heh : m'.envelope_hash = r'.envelope_hash)
    (hpend : r'.pending_op.isSome = true)
    (hps : ps.contains m'.envelope_hash = true) :
    ∃ r'' ∈ save_msg_step a mbox ps ms m',
      r''.account_id = r'.account_id ∧
      r''.envelope_hash = r'.envelope_hash ∧
      r''.pending_op = r'.pending_op ∧
      r''.flags_local = r'.flags_local ∧
      r''.flags_server = flags_to_u8 m'.is_read m'.is_starred := by
  unfold save_msg_step
  rw [if_pos hps]
  refine ⟨_, List.mem_map_of_mem _ h, ?_⟩
  rw [if_pos (show (r'.account_id == a &&
      r'.envelope_hash == m'.envelope_hash && r'.pending_op.isSome) = true
    by simp [hacct, heh, hpend])]
  exact ⟨rfl, rfl, rfl, rfl, rfl⟩

theorem foldl_save_msg_quad (a : String) (mbox : Nat) (ps : List Nat)
    (A : String) (EH : Nat) (PO : Option String) (FL : Nat) :
    ∀ (l : List MessageSummary) (ms : List MessageRow),
      (∃ r' ∈ ms, r'.account_id = A ∧ r'.envelope_hash = EH ∧
        r'.pending_op = PO ∧ r'.flags_local = FL) →
      ∃ r' ∈ l.foldl (save_msg_step a mbox ps) ms,
        r'.account_id = A ∧ r'.envelope_hash = EH ∧
        r'.pending_op = PO ∧ r'.flags_local = FL := by
  intro l
  induction l with
  | nil => intro ms hms; exact hms
  | cons m' l ih =>
    intro ms hms
    obtain ⟨r', hr', e1, e2, e3, e4⟩ := hms
    obtain ⟨r'', hr'', f1, f2, f3, f4, _⟩ :=
      save_msg_step_mem a mbox ps ms m' r' hr'
    exact ih (save_msg_step a mbox ps ms m')
      ⟨r'', hr'', f1.trans e1, f2.trans e2, f3.trans e3, f4.trans e4⟩

theorem foldl_save_msg_track (a : String) (mbox : Nat) (ps : List Nat)
    (A : String) (EH : Nat) (PO : Option String) (FL FS : Nat) :
    ∀ (l : List MessageSummary),
      (∀ m' ∈ l, m'.envelope_hash = EH →
        flags_to_u8 m'.is_read m'.is_starred = FS) →
      ∀ (ms : List MessageRow),
      (∃ r' ∈ ms, r'.account_id = A ∧ r'.envelope_hash = EH ∧
        r'.pending_op = PO ∧ r'.flags_local = FL ∧ r'.flags_server = FS) →
      ∃ r' ∈ l.foldl (save_msg_step a mbox ps) ms,
        r'.account_id = A ∧ r'.envelope_hash = EH ∧
        r'.pending_op = PO ∧ r'.flags_local = FL ∧ r'.flags_server = FS := by
  intro l
  induction l with
  | nil => intro _ ms hms; exact hms
  | cons m' l ih =>
    intro hl ms hms
    obtain ⟨r', hr', e1, e2, e3, e4, e5⟩ := hms
    obtain ⟨r'', hr'', f1, f2, f3, f4, f5⟩ :=
      save_msg_step_mem a mbox ps ms m' r' hr'
    refine ih (fun x hx => hl x (List.mem_cons_of_mem m' hx))
      (save_msg_step a mbox ps ms m')
      ⟨r'', hr'', f1.trans e1, f2.trans e2, f3.trans e3, f4.trans e4, ?_⟩
    rcases f5 with f5 | ⟨g1, g2⟩
    · exact f5.trans e5
    · rw [g2]
      exact hl m' (List.mem_cons_self m' l) (g1.trans e2)

/-- C2: a Dirty row (pending_op set) of the given account and mailbox
survives `save_messages` whose incoming list contains a (unique) message
with the same envelope_hash: the surviving row keeps its `flags_local`
and `pending_op` and gets `flags_server = pack(is_read, is_starred)` of
that incoming message. -/
theorem dual_truth_preservation (db : Db) (a : String) (mbox : Nat)
    (msgs : List MessageSummary) (r : MessageRow) (m : MessageSummary)
    (hr : r ∈ db.messages) (hacct : r.account_id = a)
    (hmb : r.mailbox_hash = mbox) (hdirty : r.pending_op.isSome = true)
    (hm : m ∈ msgs) (hmeh : m.envelope_hash = r.envelope_hash)
    (huniq : ∀ m' ∈ msgs, m'.envelope_hash = r.envelope_hash → m' = m) :
    ∃ r' ∈ (do_save_messages db a mbox msgs).messages,
      r'.account_id = r.account_id ∧
      r'.envelope_hash = r.envelope_hash ∧
      r'.flags_local = r.flags_local ∧
      r'.pending_op = r.pending_op ∧
      r'.flags_server = flags_to_u8 m.is_read m.is_starred := by
  obtain ⟨l1, l2, rfl⟩ := List.append_of_mem hm
  simp only [do_save_messages]
  rw [List.foldl_append, List.foldl_cons]
  set ps := (db.messages.filter (fun x =>
    x.account_id == a && x.mailbox_hash == mbox &&
    x.pending_op.isSome)).map (fun x => x.envelope_hash) with hpsdef
  set ms0 := db.messages.filter (fun x =>
    !(x.account_id == a && x.mailbox_hash == mbox &&
      x.pending_op.isNone)) with hms0def
  have hps : ps.contains m.envelope_hash = true := by
    rw [hpsdef]
    apply List.elem_eq_true_of_mem
    rw [hmeh]
    apply List.mem_map_of_mem
    apply List.mem_filter.mpr
    exact ⟨hr, by simp [hacct, hmb, hdirty]⟩
  have hr0 : r ∈ ms0 := by
    rw [hms0def]
    apply List.mem_filter.mpr
    refine ⟨hr, ?_⟩
    obtain ⟨v, hv⟩ := Option.isSome_iff_exists.mp hdirty
    simp [hv]
  have step1 := foldl_save_msg_quad a mbox ps r.account_id r.envelope_hash
    r.pending_op r.flags_local l1 ms0 ⟨r, hr0, rfl, rfl, rfl, rfl⟩
  obtain ⟨r1, hr1, e1, e2, e3, e4⟩ := step1
  have step2 := save_msg_step_hits a mbox ps
    (l1.foldl (save_msg_step a mbox ps) ms0) m r1 hr1 (e1.trans hacct)
    (by rw [e2, hmeh]) (by rw [e3]; exact hdirty) hps
  obtain ⟨r2, hr2, f1, f2, f3, f4, f5⟩ := step2
  have step3 := foldl_save_msg_track a mbox ps r.account_id r.envelope_hash
    r.pending_op r.flags_local (flags_to_u8 m.is_read m.is_starred) l2
    (fun m' hm' hme => by
      rw [huniq m'
        (List.mem_append_right _ (List.mem_cons_of_mem _ hm')) hme])
    (save_msg_step a mbox ps (l1.foldl (save_msg_step a mbox ps) ms0) m)
    ⟨r2, hr2, f1.trans e1, f2.trans e2, f3.trans e3, f4.trans e4, f5⟩
  obtain ⟨r', hmem, g1, g2, g3, g4, g5⟩ := step3
  exact ⟨r', hmem, g1, g2, g4, g3, g5⟩

-- ---------------------------------------------------------------------------
-- Claim C7
-- ---------------------------------------------------------------------------

theorem rewrite_token_eq (token : List Char) :
    (let is_plain := token.all (fun c => c.isAlphanum || c == '_')
     if !is_plain || decide (token.length < 3) ||
         token.getLast? == some '*' then token
     else token ++ ['*']) =
    (if token.all (fun c => c.isAlphanum || c == '_') &&
        decide (3 ≤ token.length) && !(token.getLast? == some '*')
     then token ++ ['*'] else token) := by
  simp only []
  by_cases hp : token.all (fun c => c.isAlphanum || c == '_') = true
  · by_cases hl : token.length < 3
    · rw [if_pos (by rw [decide_eq_true hl]; simp),
        if_neg (by rw [decide_eq_false (Nat.not_le.mpr hl)]; simp)]
    · by_cases he : (token.getLast? == some '*') = true
      · rw [if_pos (by rw [he]; simp), if_neg (by rw [he]; simp)]
      · have he' := Bool.eq_false_iff.mpr he
        rw [if_neg (by rw [hp, he', decide_eq_false hl]; simp),
          if_pos (by
            rw [hp, he', decide_eq_true (Nat.le_of_not_lt hl)]; simp)]
  · have hp' := Bool.eq_false_iff.mpr hp
    rw [if_pos (by rw [hp']; simp), if_neg (by rw [hp']; simp)]

theorem code_rewrite_eq_spec (query : List Char) :
    (if query.contains '"' then query
     else
       List.intercalate [' ']
         ((words query).map (fun token =>
           let is_plain := token.all (fun c => c.isAlphanum || c == '_')
           if !is_plain || decide (token.length < 3) ||
               token.getLast? == some '*' then token
           else token ++ ['*']))) = spec_fts_rewrite query := by
  unfold spec_fts_rewrite
  by_cases hq : query.contains '"' = true
  · rw [if_pos hq, if_pos hq]
  · rw [if_neg hq, if_neg hq]
    congr 1
    apply List.map_congr_left
    intro token _
    exact rewrite_token_eq token

/-- C7: `do_search` on a blank query returns an empty result without
querying; on a non-blank query it queries FTS with exactly the rewrite
described by the spec — the trimmed query passed through unchanged when
it contains a double-quote, otherwise split on whitespace with a star
appended to each token iff the token is purely ASCII alphanumeric or
underscore, has length at least 3, and does not already end in a star —
ordered by timestamp descending and capped at 200 rows. -/
theorem search_query_rewriting (db : Db) (q : String)
    (matcher : List Char → MessageRow → Bool) :
    (trimChars q.data = [] → do_search db q matcher = []) ∧
    ((trimChars q.data).contains '"' = true →
      spec_fts_rewrite (trimChars q.data) = trimChars q.data) ∧
    (trimChars q.data ≠ [] → do_search db q matcher =
      ((sortLe (fun r1 r2 => decide (r2.timestamp ≤ r1.timestamp))
        (db.messages.filter (matcher (spec_fts_rewrite
          (trimChars q.data))))).take 200).map row_to_summary) := by
  refine ⟨?_, ?_, ?_⟩
  · intro hempty
    simp only [do_search]
    rw [if_pos (by simp [List.isEmpty_iff, hempty])]
  · intro hq
    unfold spec_fts_rewrite
    rw [if_pos hq]
  · intro hne
    simp only [do_search]
    rw [if_neg (by simp [List.isEmpty_iff, hne]), code_rewrite_eq_spec]

/-- C7 (witness): the rewriting theorem applied at the two-token plain
query "invoice king", whose rewrite appends a star to both tokens. -/
theorem search_query_rewriting_witness :
    trimChars ("invoice king".data) ≠ [] ∧
    do_search twoAccountDb "invoice king"
      (fun fq r => fq == "invoice* king*".data && r.subject == "subject") =
      ((sortLe (fun r1 r2 => decide (r2.timestamp ≤ r1.timestamp))
        (twoAccountDb.messages.filter
          ((fun fq r => fq == "invoice* king*".data &&
            r.subject == "subject") (spec_fts_rewrite
              (trimChars ("invoice king".data)))))).take 200).map
        row_to_summary :=
  ⟨by decide,
   (search_query_rewriting twoAccountDb "invoice king"
     (fun fq r => fq == "invoice* king*".data &&
       r.subject == "subject")).2.2 (by decide)⟩

/-- C2 (witness): the spec's refresh-race scenario — a Dirty mark-read
row with flags_local 0b11, flags_server 0, pending "mark_read" receives
a refresh carrying server flags 0b00; the row keeps its local truth and
records the server truth. -/
theorem dual_truth_preservation_witness :
    ∃ r' ∈ (do_save_messages dirtyDb "a" 1
      [sampleSummary 42 1 false false]).messages,
      r'.account_id = "a" ∧ r'.envelope_hash = 42 ∧
      r'.flags_local = 3 ∧ r'.pending_op = some "mark_read" ∧
      r'.flags_server = flags_to_u8 false false := by
  have H := dual_truth_preservation dirtyDb "a" 1
    [sampleSummary 42 1 false false]
    { (sampleRow "a" 42 1) with
        flags_local := 3,
        flags_server := 0,
        pending_op := some "mark_read",
        is_read := 1,
        is_starred := 1 }
    (sampleSummary 42 1 false false)
    (by decide) (by decide) (by decide) (by decide) (by decide) (by decide)
    (by decide)
  simpa using H

-- ---------------------------------------------------------------------------
-- Claim C8
-- ---------------------------------------------------------------------------

theorem addColumn_pk (t : TableSchema) (c : String) :
    (addColumn t c).pk = t.pk := by
  unfold addColumn
  split <;> rfl

theorem foldl_addColumn_pk (cs : List String) :
    ∀ t : TableSchema, (cs.foldl addColumn t).pk = t.pk := by
  induction cs with
  | nil => intro t; rfl
  | cons c cs ih =>
    intro t
    rw [List.foldl_cons, ih, addColumn_pk]

theorem addColumn_mem (t : TableSchema) (c x : String)
    (h : x ∈ t.columns ∨ x = c) : x ∈ (addColumn t c).columns := by
  unfold addColumn
  by_cases hc : t.columns.contains c = true
  · rw [if_pos hc]
    rcases h with h | rfl
    · exact h
    · exact List.mem_of_elem_eq_true hc
  · rw [if_neg hc]
    rcases h with h | rfl
    · exact List.mem_append_left _ h
    · exact List.mem_append_right _ (List.mem_singleton.mpr rfl)

theorem foldl_addColumn_mem (cs : List String) :
    ∀ (t : TableSchema) (x : String),
      (x ∈ t.columns ∨ x ∈ cs) → x ∈ (cs.foldl addColumn t).columns := by
  induction cs with
  | nil =>
    intro t x h
    exact h.resolve_right (List.not_mem_nil x)
  | cons c cs ih =>
    intro t x h
    rw [List.foldl_cons]
    apply ih
    rcases h with h | h
    · exact Or.inl (addColumn_mem t c x (Or.inl h))
    · rcases List.mem_cons.mp h with heq | h
      · exact Or.inl (addColumn_mem t c x (Or.inr heq))
      · exact Or.inr h

theorem addColumn_noop (t : TableSchema) (c : String)
    (h : c ∈ t.columns) : addColumn t c = t := by
  unfold addColumn
  rw [if_pos (List.elem_eq_true_of_mem h)]

theorem foldl_addColumn_noop (cs : List String) :
    ∀ t : TableSchema, (∀ c ∈ cs, c ∈ t.columns) →
      cs.foldl addColumn t = t := by
  induction cs with
  | nil => intro t _; rfl
  | cons c cs ih =>
    intro t h
    rw [List.foldl_cons, addColumn_noop t c (h c (List.mem_cons_self c cs))]
    exact ih t (fun x hx => h x (List.mem_cons_of_mem c hx))

theorem table_pk_of_pk_eq (t u : TableSchema) (h : t.pk = u.pk) :
    table_pk_columns t = table_pk_columns u := by
  unfold table_pk_columns
  rw [h]

theorem run_migrations_idem (s : DbSchema) :
    run_migrations (run_migrations s) = run_migrations s := by
  unfold run_migrations migrate_to_account_scoped_primary_keys
  dsimp only
  by_cases hd : (table_pk_columns
      (message_alter_columns.foldl addColumn s.messages)
        == ["account_id", "envelope_hash"] &&
      table_pk_columns (addColumn s.folders "account_id")
        == ["account_id", "path"] &&
      table_pk_columns s.attachments
        == ["account_id", "envelope_hash", "idx"]) = true
  · rw [if_pos hd]
    dsimp only
    rw [foldl_addColumn_noop message_alter_columns _
      (fun c hc => foldl_addColumn_mem message_alter_columns s.messages c
        (Or.inr hc))]
    rw [addColumn_noop _ _ (addColumn_mem s.folders "account_id"
      "account_id" (Or.inr rfl))]
    rw [if_pos hd]
  · rw [if_neg hd]
    dsimp only
    rw [foldl_addColumn_noop message_alter_columns messages_v2 (by decide)]
    rw [addColumn_noop folders_v2 "account_id" (by decide)]
    rw [if_pos (by decide)]

/-- C8: the migrator is idempotent on every starting schema — a second
(or any later) run returns exactly the result of the first; one run on
the legacy single-account schema and on the current fresh schema yields
account-scoped primary keys on all three tables; and when the detected
primary keys are already account-scoped the rebuild is skipped: the
primary keys are left exactly as found and the attachments table is not
touched at all. -/
theorem migration_idempotent :
    (∀ s : DbSchema, run_migrations (run_migrations s) = run_migrations s) ∧
    (table_pk_columns (run_migrations legacySchema).messages =
        ["account_id", "envelope_hash"] ∧
     table_pk_columns (run_migrations legacySchema).folders =
        ["account_id", "path"] ∧
     table_pk_columns (run_migrations legacySchema).attachments =
        ["account_id", "envelope_hash", "idx"]) ∧
    (table_pk_columns (run_migrations currentSchema).messages =
        ["account_id", "envelope_hash"] ∧
     table_pk_columns (run_migrations currentSchema).folders =
        ["account_id", "path"] ∧
     table_pk_columns (run_migrations currentSchema).attachments =
        ["account_id", "envelope_hash", "idx"]) ∧
    (∀ s : DbSchema,
      table_pk_columns s.messages = ["account_id", "envelope_hash"] →
      table_pk_columns s.folders = ["account_id", "path"] →
      table_pk_columns s.attachments =
        ["account_id", "envelope_hash", "idx"] →
      (run_migrations s).messages.pk = s.messages.pk ∧
      (run_migrations s).folders.pk = s.folders.pk ∧
      (run_migrations s).attachments = s.attachments) := by
  refine ⟨run_migrations_idem, by decide, by decide, ?_⟩
  intro s h1 h2 h3
  unfold run_migrations migrate_to_account_scoped_primary_keys
  dsimp only
  rw [if_pos (by
    rw [table_pk_of_pk_eq _ s.messages
        (foldl_addColumn_pk message_alter_columns s.messages),
      table_pk_of_pk_eq _ s.folders (addColumn_pk s.folders "account_id"),
      h1, h2, h3]
    simp)]
  dsimp only
  exact ⟨foldl_addColumn_pk message_alter_columns s.messages,
    addColumn_pk s.folders "account_id", rfl⟩

/-- C8 (witness): idempotence applied at the legacy schema, and the
skip branch applied at the current schema whose primary keys are
already account-scoped. -/
theorem migration_idempotent_witness :
    run_migrations (run_migrations legacySchema) =
      run_migrations legacySchema ∧
    table_pk_columns currentSchema.messages =
      ["account_id", "envelope_hash"] ∧
    (run_migrations currentSchema).attachments =
      currentSchema.attachments :=
  ⟨migration_idempotent.1 legacySchema, by decide,
   (migration_idempotent.2.2.2 currentSchema (by decide) (by decide)
     (by decide)).2.2⟩

-- ---------------------------------------------------------------------------
-- Claim C6
-- ---------------------------------------------------------------------------

theorem loadMsgLe_iff (rows : List MessageRow) (r1 r2 : MessageRow) :
    loadMsgLe rows r1 r2 = true ↔
      (groupMaxTs rows (groupKey r2) < groupMaxTs rows (groupKey r1) ∨
        (groupMaxTs rows (groupKey r1) = groupMaxTs rows (groupKey r2) ∧
          (groupKey r1 < groupKey r2 ∨
            (groupKey r1 = groupKey r2 ∧
             r1.timestamp ≤ r2.timestamp)))) := by
  unfold loadMsgLe
  simp [Bool.or_eq_true, Bool.and_eq_true, decide_eq_true_eq, beq_iff_eq]

theorem loadMsgLe_total (rows : List MessageRow) (r1 r2 : MessageRow) :
    loadMsgLe rows r1 r2 = true ∨ loadMsgLe rows r2 r1 = true := by
  rw [loadMsgLe_iff, loadMsgLe_iff]
  omega

theorem loadMsgLe_trans (rows : List MessageRow) (r1 r2 r3 : MessageRow)
    (h12 : loadMsgLe rows r1 r2 = true)
    (h23 : loadMsgLe rows r2 r3 = true) :
    loadMsgLe rows r1 r3 = true := by
  rw [loadMsgLe_iff] at h12 h23 ⊢
  omega

/-- C6: the messages returned by `do_load_messages` are ordered by the
maximum timestamp over their thread group (grouped by
COALESCE(thread_id, envelope_hash) under the stored signed-64 view)
descending, then by that group key ascending — so threads cluster
contiguously — then by timestamp ascending within a thread. -/
theorem load_messages_ordering (db : Db) (a : String)
    (mbox lim off : Nat) :
    (do_load_messages db a mbox lim off).Pairwise (fun s1 s2 =>
      groupMaxTs (db.messages.filter (fun m =>
          m.mailbox_hash == mbox && m.account_id == a))
          (toI64 (s2.thread_id.getD s2.envelope_hash)) <
        groupMaxTs (db.messages.filter (fun m =>
          m.mailbox_hash == mbox && m.account_id == a))
          (toI64 (s1.thread_id.getD s1.envelope_hash)) ∨
      (groupMaxTs (db.messages.filter (fun m =>
          m.mailbox_hash == mbox && m.account_id == a))
          (toI64 (s1.thread_id.getD s1.envelope_hash)) =
        groupMaxTs (db.messages.filter (fun m =>
          m.mailbox_hash == mbox && m.account_id == a))
          (toI64 (s2.thread_id.getD s2.envelope_hash)) ∧
        (toI64 (s1.thread_id.getD s1.envelope_hash) <
            toI64 (s2.thread_id.getD s2.envelope_hash) ∨
          (toI64 (s1.thread_id.getD s1.envelope_hash) =
              toI64 (s2.thread_id.getD s2.envelope_hash) ∧
            s1.timestamp ≤ s2.timestamp)))) := by
  unfold do_load_messages
  set rows := db.messages.filter (fun m =>
    m.mailbox_hash == mbox && m.account_id == a) with hrows
  have hsorted := pairwise_sortLe (loadMsgLe rows) (loadMsgLe_total rows)
    (loadMsgLe_trans rows) rows
  have hpage : (((sortLe (loadMsgLe rows) rows).drop off).take
      lim).Pairwise (fun x y => loadMsgLe rows x y = true) :=
    List.Pairwise.sublist
      ((List.take_sublist _ _).trans (List.drop_sublist _ _)) hsorted
  apply List.Pairwise.map _ _ hpage
  intro x y hxy
  rw [loadMsgLe_iff] at hxy
  exact hxy

-- ---------------------------------------------------------------------------
-- Claim C4
-- ---------------------------------------------------------------------------

/-- C4 (counterexample): the claim fails on two concrete inputs.
First, with a duplicated incoming path — F = [INBOX:1, INBOX:2] — the
upsert keyed on (account_id, path) lets the second folder overwrite the
first's handle, the call succeeds, and the resulting handle set is {2},
not {1, 2}.  Second, with F = [] on an account holding an orphaned
attachment row (no matching message), the "clear the entire account"
branch deletes only attachments whose envelope_hash appears in the
account's messages, so the orphan row survives although the claim says
all attachments of the account are deleted. -/
theorem save_folders_sweep_counterexample :
    do_save_folders { folders := [], messages := [], attachments := [] }
        "a" dupPathFolders =
      .ok { folders := [sampleFolderRow "a" "INBOX" 2], messages := [],
            attachments := [] } ∧
    1 ∈ dupPathFolders.map (fun f => f.mailbox_hash) ∧
    1 ∉ [sampleFolderRow "a" "INBOX" 2].map (fun r => r.mailbox_hash) ∧
    do_save_folders orphanDb "a" [] =
      .ok { folders := [], messages := [],
            attachments := [sampleAttachment "a" 99 0] } := by
  refine ⟨rfl, by decide, by decide, rfl⟩

theorem upsertFolder_keeps_other_paths (a : String) (fs : List FolderRow)
    (f : Folder) (fs' : List FolderRow)
    (hok : upsertFolder a fs f = .ok fs') (r : FolderRow) (hr : r ∈ fs)
    (hne : r.path ≠ f.path) : r ∈ fs' := by
  unfold upsertFolder at hok
  by_cases h1 : (fs.any (fun x => x.account_id == a && x.path != f.path &&
      x.mailbox_hash == f.mailbox_hash)) = true
  · rw [if_pos h1] at hok
    cases hok
  · rw [if_neg h1] at hok
    by_cases h2 : (fs.any (fun x => x.account_id == a &&
        x.path == f.path)) = true
    · rw [if_pos h2] at hok
      cases hok
      apply List.mem_map.mpr
      refine ⟨r, hr, ?_⟩
      rw [if_neg]
      simp [beq_eq_false_iff_ne.mpr hne]
    · rw [if_neg h2] at hok
      cases hok
      exact List.mem_append_left _ hr

theorem upsertFolder_establishes (a : String) (fs : List FolderRow)
    (f : Folder) (fs' : List FolderRow)
    (hok : upsertFolder a fs f = .ok fs') :
    ∃ fr ∈ fs', fr.account_id = a ∧ fr.path = f.path ∧
      fr.mailbox_hash = f.mailbox_hash := by
  unfold upsertFolder at hok
  by_cases h1 : (fs.any (fun x => x.account_id == a && x.path != f.path &&
      x.mailbox_hash == f.mailbox_hash)) = true
  · rw [if_pos h1] at hok
    cases hok
  · rw [if_neg h1] at hok
    by_cases h2 : (fs.any (fun x => x.account_id == a &&
        x.path == f.path)) = true
    · rw [if_pos h2] at hok
      cases hok
      obtain ⟨r0, hr0, hcond⟩ := List.any_eq_true.mp h2
      refine ⟨_, List.mem_map_of_mem _ hr0, ?_⟩
      rw [if_pos hcond]
      simp only [Bool.and_eq_true, beq_iff_eq] at hcond
      exact ⟨hcond.1, hcond.2, rfl⟩
    · rw [if_neg h2] at hok
      cases hok
      exact ⟨_, List.mem_append_right _ (List.mem_singleton.mpr rfl),
        rfl, rfl, rfl⟩

theorem foldlM_upsert_keeps (a : String) :
    ∀ (l : List Folder) (fs fs' : List FolderRow),
      l.foldlM (upsertFolder a) fs = .ok fs' →
      ∀ r ∈ fs, (∀ g ∈ l, r.path ≠ g.path) → r ∈ fs' := by
  intro l
  induction l with
  | nil =>
    intro fs fs' hok r hr _
    simp only [List.foldlM_nil] at hok
    cases hok
    exact hr
  | cons g l ih =>
    intro fs fs' hok r hr hne
    simp only [List.foldlM_cons] at hok
    cases h1 : upsertFolder a fs g with
    | error e => rw [h1] at hok; cases hok
    | ok fs1 =>
      rw [h1] at hok
      replace hok : l.foldlM (upsertFolder a) fs1 = .ok fs' := by
        simpa using hok
      exact ih fs1 fs' hok r
        (upsertFolder_keeps_other_paths a fs g fs1 h1 r hr
          (hne g (List.mem_cons_self g l)))
        (fun g' hg' => hne g' (List.mem_cons_of_mem g hg'))

theorem foldlM_upsert_establishes (a : String) :
    ∀ (l : List Folder) (fs fs' : List FolderRow),
      l.foldlM (upsertFolder a) fs = .ok fs' →
      (l.map (fun f => f.path)).Nodup →
      ∀ f ∈ l, ∃ fr ∈ fs', fr.account_id = a ∧ fr.path = f.path ∧
        fr.mailbox_hash = f.mailbox_hash := by
  intro l
  induction l with
  | nil =>
    intro fs fs' _ _ f hf
    exact absurd hf (List.not_mem_nil f)
  | cons g l ih =>
    intro fs fs' hok hnd f hf
    simp only [List.foldlM_cons] at hok
    cases h1 : upsertFolder a fs g with
    | error e => rw [h1] at hok; cases hok
    | ok fs1 =>
      rw [h1] at hok
      replace hok : l.foldlM (upsertFolder a) fs1 = .ok fs' := by
        simpa using hok
      simp only [List.map_cons, List.nodup_cons] at hnd
      rcases List.mem_cons.mp hf with rfl | hf
      · obtain ⟨fr, hfr, e1, e2, e3⟩ :=
          upsertFolder_establishes a fs f fs1 h1
        refine ⟨fr, foldlM_upsert_keeps a l fs1 fs' hok fr hfr ?_,
          e1, e2, e3⟩
        intro g' hg' hpeq
        exact hnd.1 (List.mem_map.mpr ⟨g', hg', hpeq.symm.trans e2⟩)
      · exact ih fs1 fs' hok hnd.2 f hf

/-- C4 (amended): for a successful `save_folders(A, F)` whose incoming
paths are pairwise distinct, the mailbox handles of A's folder rows are
exactly the handles of F (when F is empty, no folder of A remains);
every message of A whose mailbox handle is not among F's handles is
deleted — all of them when F is empty — and messages of A in surviving
folders, as well as rows of other accounts, are kept; the attachments
deleted are exactly those of account A whose envelope_hash belongs to a
swept message of A, so attachments of surviving messages and orphaned
attachment rows without a message survive. -/
theorem save_folders_sweep_amended (db : Db) (a : String)
    (F : List Folder) (res : Db)
    (hdist : (F.map (fun f => f.path)).Nodup)
    (hok : do_save_folders db a F = .ok res) :
    (∀ h : Nat, (∃ fr ∈ res.folders, fr.account_id = a ∧
        fr.mailbox_hash = h) ↔ h ∈ F.map (fun f => f.mailbox_hash)) ∧
    (∀ mr ∈ db.messages, mr.account_id = a →
      mr.mailbox_hash ∉ F.map (fun f => f.mailbox_hash) →
      mr ∉ res.messages) ∧
    (∀ mr ∈ db.messages, mr.account_id = a →
      mr.mailbox_hash ∈ F.map (fun f => f.mailbox_hash) →
      mr ∈ res.messages) ∧
    (∀ mr ∈ db.messages, mr.account_id ≠ a → mr ∈ res.messages) ∧
    (∀ t ∈ db.attachments, t.account_id = a →
      (∃ mr ∈ db.messages, mr.account_id = a ∧
        mr.envelope_hash = t.envelope_hash ∧
        mr.mailbox_hash ∉ F.map (fun f => f.mailbox_hash)) →
      t ∉ res.attachments) ∧
    (∀ t ∈ db.attachments,
      (t.account_id ≠ a ∨ ¬∃ mr ∈ db.messages, mr.account_id = a ∧
        mr.envelope_hash = t.envelope_hash ∧
        mr.mailbox_hash ∉ F.map (fun f => f.mailbox_hash)) →
      t ∈ res.attachments) := by
  unfold do_save_folders at hok
  cases h1 : F.foldlM (upsertFolder a) db.folders with
  | error e => rw [h1] at hok; cases hok
  | ok fs =>
    rw [h1] at hok
    dsimp only at hok
    by_cases h2 : (F.map (fun f => f.mailbox_hash)).isEmpty = true
    · have hF : F = [] := by
        have := List.isEmpty_iff.mp h2
        exact List.map_eq_nil_iff.mp this
      subst hF
      rw [if_pos h2] at hok
      cases hok
      refine ⟨?_, ?_, ?_, ?_, ?_, ?_⟩
      · intro h
        simp only [List.map_nil, List.not_mem_nil, iff_false]
        rintro ⟨fr, hfr, ha, rfl⟩
        have hpred := (List.mem_filter.mp hfr).2
        simp [ha] at hpred
      · intro mr hmr ha _
        intro hmem
        have := (List.mem_filter.mp hmem).2
        simp [ha] at this
      · intro mr _ _ hmem
        exact absurd hmem (List.not_mem_nil _)
      · intro mr hmr ha
        exact List.mem_filter.mpr ⟨hmr, by simp [bne,
          beq_eq_false_iff_ne.mpr ha]⟩
      · intro t ht ha hex
        intro hmem
        have hpred := (List.mem_filter.mp hmem).2
        obtain ⟨mr, hmr, e1, e2, _⟩ := hex
        have : db.messages.any (fun m => m.account_id == a &&
            m.envelope_hash == t.envelope_hash) = true :=
          List.any_eq_true.mpr ⟨mr, hmr, by simp [e1, e2]⟩
        simp [ha, this] at hpred
      · intro t ht hcond
        apply List.mem_filter.mpr
        refine ⟨ht, ?_⟩
        rcases hcond with hne | hnex
        · simp [beq_eq_false_iff_ne.mpr hne]
        · have : db.messages.any (fun m => m.account_id == a &&
              m.envelope_hash == t.envelope_hash) = false := by
            apply List.any_eq_false.mpr
            intro mr hmr
            simp only [Bool.and_eq_true, beq_iff_eq, not_and]
            intro e1 e2
            exact hnex ⟨mr, hmr, e1, e2, List.not_mem_nil _⟩
          simp [this]
    · rw [if_neg h2] at hok
      cases hok
      have hcmem : ∀ (x : Nat),
          ((F.map (fun f => f.mailbox_hash)).contains x = true) ↔
            x ∈ F.map (fun f => f.mailbox_hash) :=
        fun x => ⟨List.mem_of_elem_eq_true, List.elem_eq_true_of_mem⟩
      refine ⟨?_, ?_, ?_, ?_, ?_, ?_⟩
      · intro h
        constructor
        · rintro ⟨fr, hfr, ha, rfl⟩
          have hpred := (List.mem_filter.mp hfr).2
          simp [ha] at hpred
          obtain ⟨g, hg, hgm⟩ := hpred
          exact List.mem_map.mpr ⟨g, hg, hgm⟩
        · intro hh
          obtain ⟨f, hf, rfl⟩ := List.mem_map.mp hh
          obtain ⟨fr, hfr, e1, e2, e3⟩ :=
            foldlM_upsert_establishes a F db.folders fs h1 hdist f hf
          refine ⟨fr, List.mem_filter.mpr ⟨hfr, ?_⟩, e1, e3⟩
          simp [e3]
          exact Or.inr ⟨f, hf, rfl⟩
      · intro mr hmr ha hnot hmem
        have hpred := (List.mem_filter.mp hmem).2
        simp [ha] at hpred
        obtain ⟨g, hg, hgm⟩ := hpred
        exact hnot (List.mem_map.mpr ⟨g, hg, hgm⟩)
      · intro mr hmr ha hin
        apply List.mem_filter.mpr
        refine ⟨hmr, ?_⟩
        obtain ⟨g, hg, hgm⟩ := List.mem_map.mp hin
        simp
        exact Or.inr ⟨g, hg, hgm⟩
      · intro mr hmr ha
        apply List.mem_filter.mpr
        exact ⟨hmr, by simp [beq_eq_false_iff_ne.mpr ha]⟩
      · intro t ht ha hex hmem
        have hpred := (List.mem_filter.mp hmem).2
        obtain ⟨mr, hmr, e1, e2, e3⟩ := hex
        simp [ha] at hpred
        exact hpred mr hmr e1
          (fun x hx hxm => e3 (List.mem_map.mpr ⟨x, hx, hxm⟩)) e2
      · intro t ht hcond
        apply List.mem_filter.mpr
        refine ⟨ht, ?_⟩
        rcases hcond with hne | hnex
        · simp [beq_eq_false_iff_ne.mpr hne]
        · simp
          refine Or.inr ?_
          intro mr hmr hacc hall henv
          refine hnex ⟨mr, hmr, hacc, henv, ?_⟩
          intro hin
          obtain ⟨g, hg, hgm⟩ := List.mem_map.mp hin
          exact hall g hg hgm

/-- C4 (witness): the spec's folder-sweep scenario — dropping Old
deletes its message and that message's attachment while INBOX's message
survives. -/
theorem save_folders_sweep_amended_witness :
    sampleRow "a" 7 3 ∉ sweepRes.messages ∧
    sampleRow "a" 5 1 ∈ sweepRes.messages ∧
    sampleAttachment "a" 7 0 ∉ sweepRes.attachments := by
  have H := save_folders_sweep_amended sweepDb "a" sweepIncoming sweepRes
    (by decide) rfl
  exact ⟨H.2.1 (sampleRow "a" 7 3) (by decide) (by decide) (by decide),
    H.2.2.1 (sampleRow "a" 5 1) (by decide) (by decide) (by decide),
    H.2.2.2.2.1 (sampleAttachment "a" 7 0) (by decide) (by decide)
      (by decide)⟩

end Nevermail
